import Mathlib

/-
Verification of the lely-core CANopen object dictionary (src/co/obj.c) and
TIME service (src/co/time.c) against the natural-language specification.

The development is a shallow embedding: the C data structures are rendered as
Lean structures, the C functions as executable Lean functions over them, and
the properties of the specification as theorems about those functions.

Modelling conventions, used throughout:
- machine integers are Nat (unsigned) or Int (signed results such as tv_sec),
  with explicit masks where the C masks;
- pointers are Option-typed: none renders NULL;
- the value region of an object (obj->val) is a calloc-ed memory region; the
  memory is rendered as a store of (region, offset) cells holding abstract
  typed values (one cell per sub-object slot, matching the granularity at
  which obj.c reads and writes the region);
- fallible allocation (calloc, can_recv_create, can_timer_create) is rendered
  by an explicit Bool argument saying whether the allocation succeeds.
-/

namespace LelyCo

/-! ## CANopen type codes

Numeric values are the CiA 301 data-type indices used by lely
(include/lely/co/type.h, not part of src/; the codes are fixed by CiA 301 and
referenced by name in src/unit-tests/co/test-type.cpp). -/

def CO_DEFTYPE_BOOLEAN : Nat := 0x0001

def CO_DEFTYPE_INTEGER8 : Nat := 0x0002

def CO_DEFTYPE_INTEGER16 : Nat := 0x0003

def CO_DEFTYPE_INTEGER32 : Nat := 0x0004

def CO_DEFTYPE_UNSIGNED8 : Nat := 0x0005

def CO_DEFTYPE_UNSIGNED16 : Nat := 0x0006

def CO_DEFTYPE_UNSIGNED32 : Nat := 0x0007

def CO_DEFTYPE_REAL32 : Nat := 0x0008

def CO_DEFTYPE_VISIBLE_STRING : Nat := 0x0009

def CO_DEFTYPE_OCTET_STRING : Nat := 0x000A

def CO_DEFTYPE_UNICODE_STRING : Nat := 0x000B

def CO_DEFTYPE_TIME_OF_DAY : Nat := 0x000C

def CO_DEFTYPE_TIME_DIFF : Nat := 0x000D

def CO_DEFTYPE_DOMAIN : Nat := 0x000F

def CO_DEFTYPE_INTEGER24 : Nat := 0x0010

def CO_DEFTYPE_REAL64 : Nat := 0x0011

def CO_DEFTYPE_INTEGER40 : Nat := 0x0012

def CO_DEFTYPE_INTEGER48 : Nat := 0x0013

def CO_DEFTYPE_INTEGER56 : Nat := 0x0014

def CO_DEFTYPE_INTEGER64 : Nat := 0x0015

def CO_DEFTYPE_UNSIGNED24 : Nat := 0x0016

def CO_DEFTYPE_UNSIGNED40 : Nat := 0x0018

def CO_DEFTYPE_UNSIGNED48 : Nat := 0x0019

def CO_DEFTYPE_UNSIGNED56 : Nat := 0x001A

def CO_DEFTYPE_UNSIGNED64 : Nat := 0x001B

/--
Predicate co_type_is_basic from src/co/type.c. The implementation file is not
part of src/; its behaviour is pinned by the repository unit test
src/unit-tests/co/test-type.cpp (TEST(CO_Type, CoTypeIsBasic_True) and
CoTypeIsBasic_False): true for BOOLEAN, the signed and unsigned integer
widths, REAL32 and REAL64; false for TIME_OF_DAY, TIME_DIFF, the four array
types and the invalid code 0xffff. The test lists every one of these codes
except INTEGER24, which it never mentions; INTEGER24's membership in the
basic family follows the specification's basic-family list (BOOLEAN,
INTEGER8/16/24/32/40/48/56/64, UNSIGNED8/16/24/32/40/48/56/64, REAL32/64).
On every code the test pins, this definition agrees with the test.
-/
def co_type_is_basic (type : Nat) : Bool :=
  type = CO_DEFTYPE_BOOLEAN ||
  type = CO_DEFTYPE_INTEGER8 || type = CO_DEFTYPE_INTEGER16 ||
  type = CO_DEFTYPE_INTEGER24 || type = CO_DEFTYPE_INTEGER32 ||
  type = CO_DEFTYPE_INTEGER40 || type = CO_DEFTYPE_INTEGER48 ||
  type = CO_DEFTYPE_INTEGER56 || type = CO_DEFTYPE_INTEGER64 ||
  type = CO_DEFTYPE_UNSIGNED8 || type = CO_DEFTYPE_UNSIGNED16 ||
  type = CO_DEFTYPE_UNSIGNED24 || type = CO_DEFTYPE_UNSIGNED32 ||
  type = CO_DEFTYPE_UNSIGNED40 || type = CO_DEFTYPE_UNSIGNED48 ||
  type = CO_DEFTYPE_UNSIGNED56 || type = CO_DEFTYPE_UNSIGNED64 ||
  type = CO_DEFTYPE_REAL32 || type = CO_DEFTYPE_REAL64

/--
Predicate co_type_is_array from src/co/type.c, pinned by the unit test
src/unit-tests/co/test-type.cpp (TEST(CO_Type, CoTypeIsArray_True) and
CoTypeIsArray_False): true exactly for the four variable-length types.
-/
def co_type_is_array (type : Nat) : Bool :=
  type = CO_DEFTYPE_VISIBLE_STRING || type = CO_DEFTYPE_OCTET_STRING ||
  type = CO_DEFTYPE_UNICODE_STRING || type = CO_DEFTYPE_DOMAIN

/--
Host storage size in bytes of a CANopen type (co_type_sizeof). The
implementation is not part of src/; the unit test pins it to
sizeof(co_NAME_t) of the host C types, rendered here for an LP64 host.
Unknown type codes give 0 (the test pins co_type_sizeof(0xffff) == 0). The
dictionary theorems below depend only on the sizes of valid types being
positive, not on the individual values.
-/
def co_type_sizeof (type : Nat) : Nat :=
  match type with
  | 0x0001 => 1
  | 0x0002 => 1
  | 0x0003 => 2
  | 0x0004 => 4
  | 0x0005 => 1
  | 0x0006 => 2
  | 0x0007 => 4
  | 0x0008 => 4
  | 0x0009 => 8
  | 0x000A => 8
  | 0x000B => 8
  | 0x000C => 8
  | 0x000D => 8
  | 0x000F => 8
  | 0x0010 => 4
  | 0x0011 => 8
  | 0x0012 => 8
  | 0x0013 => 8
  | 0x0014 => 8
  | 0x0015 => 8
  | 0x0016 => 4
  | 0x0018 => 8
  | 0x0019 => 8
  | 0x001A => 8
  | 0x001B => 8
  | _ => 0

/--
Host alignment requirement of a CANopen type (co_type_alignof), rendered for
an LP64 host as co_type_sizeof is. Unknown codes give 1 (the test pins
co_type_alignof(0xffff) == 1). Always positive.
-/
def co_type_alignof (type : Nat) : Nat :=
  match type with
  | 0x0001 => 1
  | 0x0002 => 1
  | 0x0003 => 2
  | 0x0004 => 4
  | 0x0005 => 1
  | 0x0006 => 2
  | 0x0007 => 4
  | 0x0008 => 4
  | 0x0009 => 8
  | 0x000A => 8
  | 0x000B => 8
  | 0x000C => 4
  | 0x000D => 4
  | 0x000F => 8
  | 0x0010 => 4
  | 0x0011 => 8
  | 0x0012 => 8
  | 0x0013 => 8
  | 0x0014 => 8
  | 0x0015 => 8
  | 0x0016 => 4
  | 0x0018 => 8
  | 0x0019 => 8
  | 0x001A => 8
  | 0x001B => 8
  | _ => 1

/-! ## SDO abort codes

Constants from include/lely/co/sdo.h (not part of src/). The values below
0x06090033 are given verbatim by the specification (section 4.4);
CO_SDO_AC_PARAM_VAL and CO_SDO_AC_PARAM_RANGE carry the CiA 301 values used
by lely (invalid parameter value, and maximum less than minimum). -/

def CO_SDO_AC_NO_READ : Nat := 0x06010001

def CO_SDO_AC_NO_WRITE : Nat := 0x06010002

def CO_SDO_AC_TYPE_LEN : Nat := 0x06070010

def CO_SDO_AC_NO_SUB : Nat := 0x06090011

def CO_SDO_AC_PARAM_VAL : Nat := 0x06090030

def CO_SDO_AC_PARAM_HI : Nat := 0x06090031

def CO_SDO_AC_PARAM_LO : Nat := 0x06090032

def CO_SDO_AC_PARAM_RANGE : Nat := 0x06090036

def CO_SDO_AC_NO_DATA : Nat := 0x08000024

def CO_SDO_AC_ERROR : Nat := 0x08000000

/-! ## Access modes

Constants from include/lely/co/obj.h (not part of src/): read and write
permission bits and the named modes built from them (spec section 3,
sub-object access mode). -/

def CO_ACCESS_READ : Nat := 0x01

def CO_ACCESS_WRITE : Nat := 0x02

def CO_ACCESS_RO : Nat := CO_ACCESS_READ

def CO_ACCESS_WO : Nat := CO_ACCESS_WRITE

def CO_ACCESS_RW : Nat := CO_ACCESS_READ + CO_ACCESS_WRITE

/-! ## CAN identifier masks and frame flags

Constants from include/lely/can/msg.h (not part of src/): the 11-bit base
and 29-bit extended CAN-ID masks, and the frame flag bits (spec section 6). -/

def CAN_MASK_BID : Nat := 0x7FF

def CAN_MASK_EID : Nat := 0x1FFFFFFF

def CAN_FLAG_IDE : Nat := 0x01

def CAN_FLAG_RTR : Nat := 0x02

def CAN_FLAG_EDL : Nat := 0x04

/-! ## TIME COB-ID bits

Constants from include/lely/co/time.h (not part of src/), given by the
specification (section 4.7): bit 31 producer enable, bit 30 consumer enable,
bit 29 29-bit (extended) CAN-ID frame. -/

def CO_TIME_COBID_PRODUCER : Nat := 0x80000000

def CO_TIME_COBID_CONSUMER : Nat := 0x40000000

def CO_TIME_COBID_FRAME : Nat := 0x20000000

/-! ## Sub-objects and the bounds check -/

/--
Rendering of struct __co_sub (src/obj.h via src/co/obj.c). Fields kept: the
owner pointer obj (none = detached), the 8-bit sub-index, the 16-bit type
code, the min, max and def limit values (in-struct union co_val storage,
rendered as the abstract typed value, an Int), the access mode bits, and the
value pointer val into the owning object's value region (none = NULL). The
name, pdo_mapping, flags and indication-callback fields play no part in the
claims about obj.c modelled here and are omitted; dflt renders sub->def
(def is a reserved word in Lean).
-/
structure CoSub where
  obj : Option Nat
  subidx : Nat
  type : Nat
  min : Int
  max : Int
  dflt : Int
  access : Nat
  val : Option (Nat × Nat)
deriving DecidableEq, Repr

/--
Comparison co_val_cmp from src/co/val.c (not part of src/). Modelled from the
spec: each basic type carries a pairwise total order used for min/max bounds
checking (section 3); on the abstract value domain this is the numeric order,
returning negative, zero or positive as the C function does.
-/
def co_val_cmp (type : Nat) (a b : Int) : Int :=
  if a < b then -1 else if b < a then 1 else 0

/--
Translation of co_sub_chk_val (src/co/obj.c lines 658-681). Checks a
candidate value of the supplied type against the declared type and the min
and max bounds of the sub-object; non-basic types are accepted outright.
-/
def co_sub_chk_val (sub : CoSub) (type : Nat) (val : Int) : Nat :=
  if !co_type_is_basic sub.type then 0
  else if sub.type ≠ type then CO_SDO_AC_TYPE_LEN
  else if co_val_cmp sub.type sub.min sub.max > 0 then CO_SDO_AC_PARAM_RANGE
  else if co_val_cmp sub.type val sub.max > 0 then CO_SDO_AC_PARAM_HI
  else if co_val_cmp sub.type val sub.min < 0 then CO_SDO_AC_PARAM_LO
  else 0

/--
Translation of co_sub_dn_ind (src/co/obj.c lines 797-811). The sub argument
renders the possibly-NULL sub pointer, req the possibly-NULL request pointer,
and ind the stored download indication function sub->dn_ind together with its
user data (the C calls sub->dn_ind(sub, req, sub->dn_data)); quantifying a
theorem over ind expresses that a result is produced without invoking the
callback.
-/
def co_sub_dn_ind (sub : Option CoSub) (req : Option Unit)
    (ind : CoSub → Unit → Nat) : Nat :=
  match sub with
  | none => CO_SDO_AC_NO_SUB
  | some s =>
    if s.access &&& CO_ACCESS_WRITE = 0 then CO_SDO_AC_NO_WRITE
    else
      match req with
      | none => CO_SDO_AC_ERROR
      | some r => ind s r

/--
Translation of co_sub_up_ind (src/co/obj.c lines 893-907), the upload
counterpart of co_sub_dn_ind: absent sub gives the no-such-sub-index abort,
missing read permission gives the write-only abort, otherwise the stored
upload indication runs.
-/
def co_sub_up_ind (sub : Option CoSub) (req : Option Unit)
    (ind : CoSub → Unit → Nat) : Nat :=
  match sub with
  | none => CO_SDO_AC_NO_SUB
  | some s =>
    if s.access &&& CO_ACCESS_READ = 0 then CO_SDO_AC_NO_READ
    else
      match req with
      | none => CO_SDO_AC_ERROR
      | some r => ind s r

/-! ## TIME service (src/co/time.c) -/

/--
Rendering of co_time_of_day_t / co_time_diff_t (include/lely/co/val.h, not
part of src/; layout given by the spec, section 3): a 28-bit count of
milliseconds and a 16-bit count of days.
-/
structure CoTimeOfDay where
  ms : Nat
  days : Nat
deriving DecidableEq, Repr

/--
Rendering of struct timespec: seconds and nanoseconds, as integers.
-/
structure Timespec where
  tv_sec : Int
  tv_nsec : Int
deriving DecidableEq, Repr

/--
Translation of co_time_diff_get (src/co/time.c lines 123-131): seconds are
days times 24*60*60 plus the whole seconds of ms, nanoseconds the remaining
milliseconds scaled to nanoseconds.
-/
def co_time_diff_get (td : CoTimeOfDay) : Timespec :=
  { tv_sec := (td.days : Int) * (24 * 60 * 60) + (td.ms / 1000 : Nat)
    tv_nsec := ((td.ms % 1000 : Nat) : Int) * 1000000 }

/--
Translation of co_time_of_day_get (src/co/time.c lines 94-105): converts the
CANopen time (seconds since January 1, 1984) to the Unix epoch by adding 14
years and 3 leap days of seconds.
-/
def co_time_of_day_get (tod : CoTimeOfDay) : Timespec :=
  let tp := co_time_diff_get tod
  { tp with tv_sec := tp.tv_sec + (14 * 365 + 3) * 24 * 60 * 60 }

/--
Rendering of struct can_msg (include/lely/can/msg.h, not part of src/; field
list given by the spec, section 6): CAN identifier, flag bits, data length
and data bytes.
-/
structure CanMsg where
  id : Nat
  flags : Nat
  len : Nat
  data : List Nat
deriving DecidableEq, Repr

/--
Little-endian 16-bit load ldle_u16 (lely/util/endian.h, not part of src/).
Modelled from the spec: bytes 4..5 of a TIME frame are a little-endian 16-bit
day count (section 6, wire formats).
-/
def ldle_u16 (data : List Nat) : Nat :=
  data.getD 0 0 + 0x100 * data.getD 1 0

/--
Little-endian 32-bit load ldle_u32 (lely/util/endian.h, not part of src/).
Modelled from the spec: bytes 0..3 of a TIME frame are a little-endian
32-bit value (section 6, wire formats).
-/
def ldle_u32 (data : List Nat) : Nat :=
  data.getD 0 0 + 0x100 * data.getD 1 0 + 0x10000 * data.getD 2 0 +
    0x1000000 * data.getD 3 0

/--
Translation of the TIME consumer receive callback co_time_recv (src/co/time.c
lines 418-449). The first component is the callback return value (always 0);
the second renders the observable effect: some tv when the body reaches the
user indication call with argument tv (the C invokes time->ind(time, &tv,
time->data) when an indication is registered), none when the frame is dropped
(remote frame, CAN FD frame, or fewer than 6 data bytes) and the body has no
effect at all: the source mutates no state and sends nothing on any path.
-/
def co_time_recv (msg : CanMsg) : Int × Option Timespec :=
  if msg.flags &&& CAN_FLAG_RTR ≠ 0 then (0, none)
  else if msg.flags &&& CAN_FLAG_EDL ≠ 0 then (0, none)
  else if msg.len < 6 then (0, none)
  else
    let tod : CoTimeOfDay :=
      { ms := ldle_u32 msg.data &&& 0x0fffffff
        days := ldle_u16 (msg.data.drop 4) }
    (0, some (co_time_of_day_get tod))

/--
Rendering of the TIME service state struct __co_time (src/co/time.c lines
41-60) as far as the receiver and timer are concerned: the stored COB-ID
time->cobid, the receiver time->recv rendered as none when NULL and
some (id, flags) when allocated and started on CAN identifier id with the
given frame flags, and the producer timer time->timer rendered as a Bool
(allocated or not). The net, dev, sub_1013_00, start and indication fields
do not take part in the modelled claims.
-/
structure CoTimeSrv where
  cobid : Nat
  recv : Option (Nat × Nat)
  timer : Bool
deriving DecidableEq, Repr

/--
Producer half of co_time_update (src/co/time.c lines 341-353): when the
producer bit of the COB-ID is set a CAN timer is allocated if none exists
(failure returns -1), otherwise an existing timer is destroyed.
-/
def co_time_update_producer (t : CoTimeSrv) (timerAllocOk : Bool) :
    CoTimeSrv × Int :=
  if t.cobid &&& CO_TIME_COBID_PRODUCER ≠ 0 then
    if t.timer = false ∧ timerAllocOk = false then (t, -1)
    else ({ t with timer := true }, 0)
  else ({ t with timer := false }, 0)

/--
Translation of co_time_update (src/co/time.c lines 314-354). When the
consumer bit is set, a receiver is allocated if none exists (allocation
failure returns -1 at once, skipping the producer half as the C early return
does) and started under the 29-bit CAN-ID with the IDE flag when the frame
bit is set, or under the 11-bit CAN-ID otherwise; with the consumer bit
clear an existing receiver is destroyed. The producer half then maintains
the timer the same way.
-/
def co_time_update (t : CoTimeSrv) (recvAllocOk timerAllocOk : Bool) :
    CoTimeSrv × Int :=
  if t.cobid &&& CO_TIME_COBID_CONSUMER ≠ 0 then
    if t.recv = none ∧ recvAllocOk = false then (t, -1)
    else if t.cobid &&& CO_TIME_COBID_FRAME ≠ 0 then
      co_time_update_producer
        { t with recv := some (t.cobid &&& CAN_MASK_EID, CAN_FLAG_IDE) }
        timerAllocOk
    else
      co_time_update_producer
        { t with recv := some (t.cobid &&& CAN_MASK_BID, 0) } timerAllocOk
  else co_time_update_producer { t with recv := none } timerAllocOk

/--
Combined state acted on by the download indication of object 1012: the TIME
service state and the value stored in sub-object 1012:00 of the dictionary
(read by co_sub_get_val_u32(sub) and written by co_sub_dn(sub, &val); the
CO_OBJ_FLAGS_WRITE refuse-store flag is clear for 1012:00, so co_sub_dn
stores the value).
-/
structure CoTime1012 where
  srv : CoTimeSrv
  stored : Nat
deriving DecidableEq, Repr

/--
Translation of co_1012_dn_ind (src/co/time.c lines 356-416), the download
indication for object 1012, taken after co_sdo_req_dn_val has decoded the
incoming UNSIGNED32 (the SDO request plumbing lives in src/co/sdo.c, not
part of src/; a failed decode returns its own abort code with no state
change and is outside this model). subidx is the sub-index addressed by the
download and cobid the decoded value; rOk and tOk say whether the receiver
and timer allocations inside the final co_time_update succeed (its return
value is ignored by the C caller).
-/
def co_1012_dn_ind (s : CoTime1012) (subidx : Nat) (cobid : Nat)
    (rOk tOk : Bool) : CoTime1012 × Nat :=
  if subidx ≠ 0 then (s, CO_SDO_AC_NO_SUB)
  else if cobid = s.stored then (s, 0)
  else if (cobid &&& CO_TIME_COBID_PRODUCER ≠ 0 ∨
        cobid &&& CO_TIME_COBID_CONSUMER ≠ 0) ∧
      (s.stored &&& CO_TIME_COBID_PRODUCER ≠ 0 ∨
        s.stored &&& CO_TIME_COBID_CONSUMER ≠ 0) ∧
      cobid &&& CAN_MASK_EID ≠ s.stored &&& CAN_MASK_EID then
    (s, CO_SDO_AC_PARAM_VAL)
  else if cobid &&& CO_TIME_COBID_FRAME = 0 ∧
      cobid &&& (CAN_MASK_EID ^^^ CAN_MASK_BID) ≠ 0 then
    (s, CO_SDO_AC_PARAM_VAL)
  else
    ({ srv := (co_time_update { s.srv with cobid := cobid } rOk tOk).1,
       stored := cobid }, 0)

/-! ## The object dictionary heap model

Objects and sub-objects are heap entities referenced by pointers; the model
gives each one a numeric identifier and keeps two association lists. Value
regions are calloc-ed blocks; the memory is a store of (region, offset)
cells holding abstract typed values, with fresh region identifiers counted
up and never reused. A cell absent from the store of a region allocated by
calloc reads as the zero value, matching the zero fill of calloc. -/

/--
Pointer into an object's value region: allocation region identifier and byte
offset (the C sub->val is (char *)obj->val + offset).
-/
abbrev RegPtr := Nat × Nat

/--
Memory: the next fresh region identifier, and the written cells. Absent
cells of an allocated region read as zero (calloc zero fill).
-/
structure Mem where
  next : Nat
  store : List (RegPtr × Int)
deriving DecidableEq, Repr

/--
Lookup of the cell p, most recent write first; zero when never written.
-/
def storeRead : List (RegPtr × Int) → RegPtr → Int
  | [], _ => 0
  | (q, v) :: rest, p => if q = p then v else storeRead rest p

/--
Read of cell p in memory m.
-/
def Mem.read (m : Mem) (p : RegPtr) : Int :=
  storeRead m.store p

/--
Write of value v to cell p in memory m.
-/
def Mem.write (m : Mem) (p : RegPtr) (v : Int) : Mem :=
  { m with store := (p, v) :: m.store }

/--
Rendering of co_val_move (src/co/val.c, not part of src/; semantics given by
the spec, section 4.1): transfer the value from cell src to cell dst,
leaving the source zeroed.
-/
def Mem.move (m : Mem) (dst src : RegPtr) : Mem :=
  (m.write dst (m.read src)).write src 0

/--
Rendering of free(obj->val): drop all cells of the given region (no-op on a
NULL pointer). Region identifiers are never reused.
-/
def Mem.free (m : Mem) (r : Option Nat) : Mem :=
  match r with
  | none => m
  | some rid => { m with store := m.store.filter (fun sl => decide (sl.1.1 ≠ rid)) }

/--
Rendering of struct __co_obj (src/obj.h via src/co/obj.c): the rbtree of
sub-objects, kept as the list of sub identifiers in ascending sub-index
order (the iteration order of rbtree_foreach), the value region pointer
obj->val (none = NULL) and the region size obj->size. The dev, idx, name
and code fields play no part in the modelled claims.
-/
structure CoObj where
  tree : List Nat
  val : Option Nat
  size : Nat
deriving DecidableEq, Repr

/--
World: the memory, all sub-objects and all objects, keyed by identifier.
-/
structure World where
  mem : Mem
  subs : List (Nat × CoSub)
  objs : List (Nat × CoObj)
deriving DecidableEq, Repr

/--
Association-list lookup by key (first match).
-/
def alookup {α : Type} : List (Nat × α) → Nat → Option α
  | [], _ => none
  | (k, a) :: rest, key => if k = key then some a else alookup rest key

/--
Association-list update of the entry at the key (no-op when absent).
-/
def aset {α : Type} : List (Nat × α) → Nat → α → List (Nat × α)
  | [], _, _ => []
  | (k, a) :: rest, key, b =>
    if k = key then (k, b) :: rest else (k, a) :: aset rest key b

/--
Rendering of rbtree_find on an object's tree keyed by sub-index: is some
sub-object with the given sub-index present?
-/
def treeFind (subs : List (Nat × CoSub)) (tree : List Nat) (k : Nat) : Bool :=
  tree.any fun sid =>
    match alookup subs sid with
    | some s => s.subidx = k
    | none => false

/--
Rendering of rbtree_insert on an object's tree: place the sub identifier at
its position in ascending sub-index order (keys are distinct; insertion only
happens after rbtree_find fails).
-/
def treeInsert (subs : List (Nat × CoSub)) : List Nat → Nat → Nat → List Nat
  | [], _, sid => [sid]
  | t :: ts, k, sid =>
    match alookup subs t with
    | some s => if k < s.subidx then sid :: t :: ts else t :: treeInsert subs ts k sid
    | none => t :: treeInsert subs ts k sid

/--
Bit alignment macro ALIGN(x, a) from lely/util/util.h (not part of src/):
round x up to the next multiple of a. The C uses the power-of-two mask form
(x + a - 1) and the complement of (a - 1), equal to this quotient form for
the power-of-two alignments produced by co_type_alignof.
-/
def ALIGN (x a : Nat) : Nat :=
  (x + a - 1) / a * a

/--
First rbtree_foreach loop of co_obj_update (src/co/obj.c lines 914-921):
total size in bytes of the object, aligning each sub-object's offset to its
type and adding its size.
-/
def sizeLoop (subs : List (Nat × CoSub)) : List Nat → Nat → Nat
  | [], size => size
  | sid :: rest, size =>
    match alookup subs sid with
    | some sub =>
      sizeLoop subs rest (ALIGN size (co_type_alignof sub.type) + co_type_sizeof sub.type)
    | none => sizeLoop subs rest size

/--
Second rbtree_foreach loop of co_obj_update (src/co/obj.c lines 932-945):
recompute each sub-object's offset, point sub->val at its slot in the new
region (valOpt carries the calloc result; none renders the NULL region of a
zero total size, in which case the loop body is never reached because the
tree is empty) and move the old value into the new slot if one exists.
Returns the final size, the memory and the sub-object map.
-/
def updateLoop (valOpt : Option Nat) :
    List Nat → Nat → Mem → List (Nat × CoSub) → Nat × Mem × List (Nat × CoSub)
  | [], size, mem, subs => (size, mem, subs)
  | sid :: rest, size, mem, subs =>
    match alookup subs sid with
    | none => updateLoop valOpt rest size mem subs
    | some sub =>
      let off := ALIGN size (co_type_alignof sub.type)
      let newVal := valOpt.map fun rid => (rid, off)
      let subs1 := aset subs sid { sub with val := newVal }
      let mem1 :=
        match sub.val, newVal with
        | some s, some d => mem.move d s
        | _, _ => mem
      updateLoop valOpt rest (off + co_type_sizeof sub.type) mem1 subs1

/--
Offset assigned to sub-object sid by the recomputation loop, as a standalone
function over the pre-loop sub-object map (each identifier occurs at most
once in a tree, so the loop's in-place updates never affect the lookups of
later identifiers).
-/
def offsetOf (subs : List (Nat × CoSub)) : List Nat → Nat → Nat → Nat
  | [], _, _ => 0
  | t :: ts, size, sid =>
    match alookup subs t with
    | none => offsetOf subs ts size sid
    | some s =>
      let off := ALIGN size (co_type_alignof s.type)
      if t = sid then off else offsetOf subs ts (off + co_type_sizeof s.type) sid

/--
Translation of co_obj_update (src/co/obj.c lines 909-950): compute the new
total size, calloc a region of that size when it is nonzero (allocOk false
renders a failed calloc: set_errno and return, leaving the world unchanged),
run the recomputation loop, free the old region and install the new region
pointer and size. The loop result is a pure value; its three components are
written out where the C binds locals.
-/
def co_obj_update (w : World) (oid : Nat) (allocOk : Bool) : World :=
  match alookup w.objs oid with
  | none => w
  | some obj =>
    if sizeLoop w.subs obj.tree 0 ≠ 0 then
      if allocOk then
        { mem := (updateLoop (some w.mem.next) obj.tree 0
            { w.mem with next := w.mem.next + 1 } w.subs).2.1.free obj.val,
          subs := (updateLoop (some w.mem.next) obj.tree 0
            { w.mem with next := w.mem.next + 1 } w.subs).2.2,
          objs := aset w.objs oid
            { obj with
              val := some w.mem.next,
              size := (updateLoop (some w.mem.next) obj.tree 0
                { w.mem with next := w.mem.next + 1 } w.subs).1 } }
      else w
    else
      { mem := (updateLoop none obj.tree 0 w.mem w.subs).2.1.free obj.val,
        subs := (updateLoop none obj.tree 0 w.mem w.subs).2.2,
        objs := aset w.objs oid
          { obj with
            val := none,
            size := (updateLoop none obj.tree 0 w.mem w.subs).1 } }

/--
Translation of co_obj_insert_sub (src/co/obj.c lines 163-184): fail (-1)
when the sub-object is attached to a different object, succeed with no
effect when it is already attached to this object, fail (-1) when the
sub-index key is taken, otherwise set the owner pointer, insert into the
tree and rebuild the value region. The branches for a NULL object or
sub-object pointer render the C assert preconditions and are unreachable.
-/
def co_obj_insert_sub (w : World) (oid sid : Nat) (allocOk : Bool) :
    World × Int :=
  match alookup w.objs oid, alookup w.subs sid with
  | some obj, some sub =>
    if sub.obj ≠ none ∧ sub.obj ≠ some oid then (w, -1)
    else if sub.obj = some oid then (w, 0)
    else if treeFind w.subs obj.tree sub.subidx then (w, -1)
    else
      let subs1 := aset w.subs sid { sub with obj := some oid }
      let obj1 := { obj with tree := treeInsert w.subs obj.tree sub.subidx sid }
      let w1 : World := { w with subs := subs1, objs := aset w.objs oid obj1 }
      (co_obj_update w1 oid allocOk, 0)
  | _, _ => (w, -1)

/--
Translation of co_obj_remove_sub (src/co/obj.c lines 186-204): fail (-1)
unless the sub-object is attached to this object; otherwise remove it from
the tree, clear its owner pointer, destroy its value (co_val_fini followed
by sub->val = NULL) and rebuild the value region.
-/
def co_obj_remove_sub (w : World) (oid sid : Nat) (allocOk : Bool) :
    World × Int :=
  match alookup w.objs oid, alookup w.subs sid with
  | some obj, some sub =>
    if sub.obj ≠ some oid then (w, -1)
    else
      let obj1 := { obj with tree := obj.tree.filter (fun t => decide (t ≠ sid)) }
      let subs1 := aset w.subs sid { sub with obj := none, val := none }
      let w1 : World := { w with subs := subs1, objs := aset w.objs oid obj1 }
      (co_obj_update w1 oid allocOk, 0)
  | _, _ => (w, -1)

/--
Rendering of the typed value read co_sub_get_val (src/co/obj.c lines
615-619 together with the typed getters): none when the sub-object does not
exist or its value pointer sub->val is NULL, otherwise the value stored at
the pointer.
-/
def co_sub_get_val (w : World) (sid : Nat) : Option Int :=
  match alookup w.subs sid with
  | some sub => sub.val.map fun p => w.mem.read p
  | none => none

/--
Is the sub-object attached (sub->obj not NULL)?
-/
def subAttached (w : World) (sid : Nat) : Bool :=
  match alookup w.subs sid with
  | some sub => sub.obj ≠ none
  | none => false

/--
Sequence step: one co_obj_insert_sub or co_obj_remove_sub call.
-/
inductive DictOp : Type
  | ins (oid sid : Nat)
  | rem (oid sid : Nat)
deriving DecidableEq, Repr

/--
Apply one dictionary mutation.
-/
def stepOp (w : World) (op : DictOp) (allocOk : Bool) : World × Int :=
  match op with
  | .ins oid sid => co_obj_insert_sub w oid sid allocOk
  | .rem oid sid => co_obj_remove_sub w oid sid allocOk

/-! ## Well-formedness of a world

Invariants holding for every world built by the lely API (object and
sub-object creation followed by any sequence of insert and remove calls),
used as hypotheses of the dictionary theorems and shown to be preserved by
every step. Each component is phrased with executable helpers so that
well-formedness of a concrete world is decidable. -/

/--
Does the sub-object exist and name this object as its owner?
-/
def subOwnedBy (subs : List (Nat × CoSub)) (sid oid : Nat) : Bool :=
  match alookup subs sid with
  | some s => s.obj = some oid
  | none => false

/--
Does the object exist and hold this sub identifier in its tree?
-/
def objHasSub (objs : List (Nat × CoObj)) (oid sid : Nat) : Bool :=
  match alookup objs oid with
  | some o => o.tree.contains sid
  | none => false

/--
Value pointer of a sub identifier, none when detached or absent.
-/
def subPtrOf (subs : List (Nat × CoSub)) (sid : Nat) : Option RegPtr :=
  match alookup subs sid with
  | some s => s.val
  | none => none

/--
Is the sub-object's value pointer (when set) into the region ov?
-/
def subPtrInRegion (subs : List (Nat × CoSub)) (sid : Nat) (ov : Option Nat) :
    Bool :=
  match alookup subs sid with
  | some s =>
    match s.val with
    | some p => ov = some p.1
    | none => true
  | none => true

/--
Does the owner named by the sub-object entry (if any) hold it in its tree?
-/
def ownerConsistent (objs : List (Nat × CoObj)) (se : Nat × CoSub) : Bool :=
  match se.2.obj with
  | some oid => objHasSub objs oid se.1
  | none => true

/--
Sub-index of a sub identifier (0 when absent; trees of well-formed worlds
only hold identifiers with an entry).
-/
def subidxOf (subs : List (Nat × CoSub)) (sid : Nat) : Nat :=
  match alookup subs sid with
  | some s => s.subidx
  | none => 0

/--
Are the two value pointers (when both set) distinct?
-/
def ptrNe (a b : Option RegPtr) : Bool :=
  match a, b with
  | some p1, some p2 => p1 ≠ p2
  | _, _ => true

/--
Is the region (when set) below the allocation counter?
-/
def regionFresh (ov : Option Nat) (n : Nat) : Bool :=
  match ov with
  | some r => r < n
  | none => true

/--
Are the two regions (when both set) distinct?
-/
def regionsDiffer (a b : Option Nat) : Bool :=
  match a, b with
  | some r1, some r2 => r1 ≠ r2
  | _, _ => true

/--
Well-formed world, preserved by every insert and remove (the invariants of
the lely API: objects and sub-objects are created detached and mutated only
through co_obj_insert_sub and co_obj_remove_sub). Conjuncts: distinct sub
and object keys; each tree has distinct identifiers with pairwise distinct
sub-indices (the rbtree is keyed by sub-index), every identifier in it
names a sub-object owned by that object whose value pointer (when set) is
into the object's current region, and the value pointers of one tree are
pairwise distinct; a sub-object naming an owner is in that owner's tree; a
detached sub-object has a NULL value pointer (sub->val is only set by
co_obj_update and cleared on removal); every sub-object's type has positive
size (co_sub_create fails on types co_val_init rejects, spec section 7,
configuration error); every object's region and every written cell's region
is below the allocation counter; distinct objects own distinct regions.
-/
def WF (w : World) : Prop :=
  (w.subs.map Prod.fst).Nodup ∧
  (w.objs.map Prod.fst).Nodup ∧
  (∀ oe ∈ w.objs, oe.2.tree.Nodup) ∧
  (∀ oe ∈ w.objs, ∀ s1 ∈ oe.2.tree, ∀ s2 ∈ oe.2.tree, s1 ≠ s2 →
    subidxOf w.subs s1 ≠ subidxOf w.subs s2) ∧
  (∀ oe ∈ w.objs, ∀ sid ∈ oe.2.tree, subOwnedBy w.subs sid oe.1 = true) ∧
  (∀ oe ∈ w.objs, ∀ sid ∈ oe.2.tree, subPtrInRegion w.subs sid oe.2.val = true) ∧
  (∀ oe ∈ w.objs, ∀ s1 ∈ oe.2.tree, ∀ s2 ∈ oe.2.tree, s1 ≠ s2 →
    ptrNe (subPtrOf w.subs s1) (subPtrOf w.subs s2) = true) ∧
  (∀ se ∈ w.subs, ownerConsistent w.objs se = true) ∧
  (∀ se ∈ w.subs, se.2.obj = none → se.2.val = none) ∧
  (∀ se ∈ w.subs, 0 < co_type_sizeof se.2.type) ∧
  (∀ oe ∈ w.objs, regionFresh oe.2.val w.mem.next = true) ∧
  (∀ oe1 ∈ w.objs, ∀ oe2 ∈ w.objs, oe1.1 ≠ oe2.1 →
    regionsDiffer oe1.2.val oe2.2.val = true) ∧
  (∀ sl ∈ w.mem.store, sl.1.1 < w.mem.next)

instance (w : World) : Decidable (WF w) := by
  unfold WF
  infer_instance

/-! ## Civil calendar arithmetic

Used to state which UTC instant a decoded TIME frame denotes. Standard
days-from-civil-date computation on the proleptic Gregorian calendar;
valid for years at least 1 (all uses here are 1970 or later), counting days
relative to 1970-01-01. -/

/--
Day number of the civil date y-m-d relative to 1970-01-01 (Gregorian).
-/
def daysFromCivil (y m d : Nat) : Int :=
  let y2 := if m ≤ 2 then y - 1 else y
  let era := y2 / 400
  let yoe := y2 % 400
  let mp := (m + 9) % 12
  let doy := (153 * mp + 2) / 5 + d - 1
  let doe := yoe * 365 + yoe / 4 - yoe / 100 + doy
  (era : Int) * 146097 + (doe : Int) - 719468

/--
Unix timestamp (seconds) of the UTC instant y-m-d h:mi:s.
-/
def unixOfUTC (y m d h mi s : Nat) : Int :=
  daysFromCivil y m d * 86400 + (h : Int) * 3600 + (mi : Int) * 60 + (s : Int)

/--
Concrete sub-object used to witness the bounds-check theorem: UNSIGNED32
with limits 0 and 10.
-/
def chkValSub : CoSub :=
  { obj := none, subidx := 0, type := CO_DEFTYPE_UNSIGNED32, min := 0,
    max := 10, dflt := 0, access := CO_ACCESS_RW, val := none }

/--
Read-only sub-object (access RO) used to witness the access gating.
-/
def roSub : CoSub :=
  { obj := none, subidx := 0, type := CO_DEFTYPE_UNSIGNED32, min := 0,
    max := 0, dflt := 0, access := CO_ACCESS_RO, val := none }

/--
Write-only sub-object (access WO) used to witness the access gating.
-/
def woSub : CoSub :=
  { obj := none, subidx := 0, type := CO_DEFTYPE_UNSIGNED32, min := 0,
    max := 0, dflt := 0, access := CO_ACCESS_WO, val := none }

/--
TIME frame of concrete scenario 5 of the specification: 6 data bytes
A0 86 01 00 2C 2F on the 11-bit identifier 0x100, a classical data frame.
-/
def timeMsg2017 : CanMsg :=
  { id := 0x100, flags := 0, len := 6,
    data := [0xA0, 0x86, 0x01, 0x00, 0x2C, 0x2F] }

/--
Concrete attached sub-object (identifier 5 of wDict): UNSIGNED8 at sub-index
0, value slot at cell (0, 0).
-/
def subDict5 : CoSub :=
  { obj := some 1, subidx := 0, type := CO_DEFTYPE_UNSIGNED8, min := 0,
    max := 255, dflt := 0, access := CO_ACCESS_RW, val := some (0, 0) }

/--
Concrete detached sub-object (identifier 6 of wDict): UNSIGNED8 at sub-index
1 with default value 42 and no value slot.
-/
def subDict6 : CoSub :=
  { obj := none, subidx := 1, type := CO_DEFTYPE_UNSIGNED8, min := 0,
    max := 255, dflt := 42, access := CO_ACCESS_RW, val := none }

/--
Concrete object (identifier 1 of wDict) holding sub-object 5 in a one-byte
value region (region 0).
-/
def objDict : CoObj :=
  { tree := [5], val := some 0, size := 1 }

/--
Concrete well-formed world for the dictionary theorems: one object with one
attached sub-object whose slot holds the value 7, and one detached
sub-object ready for insertion.
-/
def wDict : World :=
  { mem := { next := 1, store := [((0, 0), 7)] },
    subs := [(5, subDict5), (6, subDict6)],
    objs := [(1, objDict)] }

/-! ## Shared lemmas on association lists, memory and alignment -/

theorem alookup_aset_eq {α : Type} (m : List (Nat × α)) (k : Nat) (b : α)
    (h : alookup m k ≠ none) : alookup (aset m k b) k = some b := by
  induction m with
  | nil => exact absurd rfl h
  | cons e rest ih =>
    by_cases hk : e.1 = k
    · rw [aset, if_pos hk, alookup, if_pos hk]
    · rw [alookup, if_neg hk] at h
      rw [aset, if_neg hk, alookup, if_neg hk]
      exact ih h

theorem alookup_aset_ne {α : Type} (m : List (Nat × α)) (k k2 : Nat) (b : α)
    (h : k ≠ k2) : alookup (aset m k b) k2 = alookup m k2 := by
  induction m with
  | nil => rfl
  | cons e rest ih =>
    by_cases hk : e.1 = k
    · rw [aset, if_pos hk, alookup, alookup, if_neg (hk ▸ h)]
      rw [if_neg (hk ▸ h)]
    · rw [aset, if_neg hk, alookup, alookup]
      by_cases hk2 : e.1 = k2
      · rw [if_pos hk2, if_pos hk2]
      · rw [if_neg hk2, if_neg hk2]
        exact ih

theorem aset_keys {α : Type} (m : List (Nat × α)) (k : Nat) (b : α) :
    (aset m k b).map Prod.fst = m.map Prod.fst := by
  induction m with
  | nil => rfl
  | cons e rest ih =>
    by_cases hk : e.1 = k
    · rw [aset, if_pos hk]
      simp
    · rw [aset, if_neg hk, List.map_cons, List.map_cons, ih]

theorem mem_aset {α : Type} (m : List (Nat × α)) (k : Nat) (b : α)
    (e : Nat × α) (h : e ∈ aset m k b) : e = (k, b) ∨ e ∈ m := by
  induction m with
  | nil => exact Or.inr h
  | cons e0 rest ih =>
    by_cases hk : e0.1 = k
    · rw [aset, if_pos hk] at h
      rcases List.mem_cons.mp h with h | h
      · subst hk
        exact Or.inl (by rw [h])
      · exact Or.inr (List.mem_cons_of_mem _ h)
    · rw [aset, if_neg hk] at h
      rcases List.mem_cons.mp h with h | h
      · exact Or.inr (h ▸ List.mem_cons_self _ _)
      · rcases ih h with h | h
        · exact Or.inl h
        · exact Or.inr (List.mem_cons_of_mem _ h)

theorem mem_of_alookup {α : Type} (m : List (Nat × α)) (k : Nat) (a : α)
    (h : alookup m k = some a) : (k, a) ∈ m := by
  induction m with
  | nil =>
    rw [alookup] at h
    exact Option.noConfusion h
  | cons e rest ih =>
    obtain ⟨k0, a0⟩ := e
    rw [alookup] at h
    by_cases hk : k0 = k
    · rw [if_pos hk] at h
      obtain rfl := Option.some.inj h
      subst hk
      exact List.mem_cons_self _ _
    · rw [if_neg hk] at h
      exact List.mem_cons_of_mem _ (ih h)

theorem alookup_of_mem_nodup {α : Type} (m : List (Nat × α)) (k : Nat) (a : α)
    (hnd : (m.map Prod.fst).Nodup) (h : (k, a) ∈ m) : alookup m k = some a := by
  induction m with
  | nil => exact absurd h (List.not_mem_nil _)
  | cons e rest ih =>
    rw [List.map_cons, List.nodup_cons] at hnd
    rcases List.mem_cons.mp h with h | h
    · rw [alookup, if_pos (congrArg Prod.fst h).symm]
      rw [← h]
    · rw [alookup]
      by_cases hk : e.1 = k
      · exfalso
        exact hnd.1 (hk ▸ List.mem_map_of_mem Prod.fst h)
      · rw [if_neg hk]
        exact ih hnd.2 h

theorem storeRead_cons_eq (s : List (RegPtr × Int)) (p : RegPtr) (v : Int) :
    storeRead ((p, v) :: s) p = v := by
  rw [storeRead, if_pos rfl]

theorem storeRead_cons_ne (s : List (RegPtr × Int)) (q p : RegPtr) (v : Int)
    (h : q ≠ p) : storeRead ((q, v) :: s) p = storeRead s p := by
  rw [storeRead, if_neg h]

theorem storeRead_absent (s : List (RegPtr × Int)) (p : RegPtr)
    (h : ∀ sl ∈ s, sl.1 ≠ p) : storeRead s p = 0 := by
  induction s with
  | nil => rfl
  | cons sl rest ih =>
    rw [storeRead, if_neg (h sl (List.mem_cons_self _ _))]
    exact ih fun x hx => h x (List.mem_cons_of_mem _ hx)

theorem mem_read_free (m : Mem) (r : Option Nat) (p : RegPtr)
    (h : ∀ rid, r = some rid → p.1 ≠ rid) : (m.free r).read p = m.read p := by
  match r with
  | none => rfl
  | some rid =>
    have hp : p.1 ≠ rid := h rid rfl
    show storeRead (m.store.filter fun sl => decide (sl.1.1 ≠ rid)) p =
      storeRead m.store p
    induction m.store with
    | nil => rfl
    | cons sl rest ih =>
      obtain ⟨q, v⟩ := sl
      by_cases hq : q.1 ≠ rid
      · rw [List.filter_cons_of_pos (by simpa using hq)]
        by_cases hqp : q = p
        · subst hqp
          rw [storeRead_cons_eq, storeRead_cons_eq]
        · rw [storeRead_cons_ne _ _ _ _ hqp, storeRead_cons_ne _ _ _ _ hqp]
          exact ih
      · rw [List.filter_cons_of_neg (by simpa using hq)]
        have hqp : q ≠ p := by
          intro he
          rw [he] at hq
          exact hq hp
        rw [storeRead_cons_ne _ _ _ _ hqp]
        exact ih

theorem mem_free_store (m : Mem) (r : Option Nat) (sl : RegPtr × Int)
    (h : sl ∈ (m.free r).store) : sl ∈ m.store := by
  match r with
  | none => exact h
  | some rid => exact List.mem_of_mem_filter h

theorem mem_free_next (m : Mem) (r : Option Nat) : (m.free r).next = m.next := by
  match r with
  | none => rfl
  | some rid => rfl

theorem le_ALIGN (x a : Nat) (ha : 0 < a) : x ≤ ALIGN x a := by
  rw [ALIGN]
  have h1 := Nat.div_add_mod (x + a - 1) a
  have h2 : (x + a - 1) % a < a := Nat.mod_lt _ ha
  rw [Nat.mul_comm]
  generalize hm : a * ((x + a - 1) / a) = s at h1 ⊢
  generalize hr : (x + a - 1) % a = r at h1 h2
  omega

theorem alignof_pos (t : Nat) : 0 < co_type_alignof t := by
  unfold co_type_alignof
  split <;> decide

theorem le_ALIGN_alignof (x t : Nat) : x ≤ ALIGN x (co_type_alignof t) :=
  le_ALIGN x _ (alignof_pos t)

/-! ## Shared lemmas on the value-region recomputation loop -/

theorem updateLoop_cons_none (v : Option Nat) (sid : Nat) (rest : List Nat)
    (sz : Nat) (mem : Mem) (subs : List (Nat × CoSub))
    (hs : alookup subs sid = none) :
    updateLoop v (sid :: rest) sz mem subs = updateLoop v rest sz mem subs := by
  rw [updateLoop, hs]

theorem updateLoop_cons_some (v : Option Nat) (sid : Nat) (rest : List Nat)
    (sz : Nat) (mem : Mem) (subs : List (Nat × CoSub)) (s : CoSub)
    (hs : alookup subs sid = some s) :
    updateLoop v (sid :: rest) sz mem subs =
      updateLoop v rest
        (ALIGN sz (co_type_alignof s.type) + co_type_sizeof s.type)
        (match s.val,
            v.map (fun rid => (rid, ALIGN sz (co_type_alignof s.type))) with
          | some src, some d => mem.move d src
          | _, _ => mem)
        (aset subs sid
          { s with
            val := v.map
              (fun rid => (rid, ALIGN sz (co_type_alignof s.type))) }) := by
  rw [updateLoop, hs]

theorem updateLoop_cons_src (rid sid : Nat) (rest : List Nat) (sz : Nat)
    (mem : Mem) (subs : List (Nat × CoSub)) (s : CoSub) (src : RegPtr)
    (hs : alookup subs sid = some s) (hv : s.val = some src) :
    updateLoop (some rid) (sid :: rest) sz mem subs =
      updateLoop (some rid) rest
        (ALIGN sz (co_type_alignof s.type) + co_type_sizeof s.type)
        (mem.move (rid, ALIGN sz (co_type_alignof s.type)) src)
        (aset subs sid
          { s with val := some (rid, ALIGN sz (co_type_alignof s.type)) }) := by
  rw [updateLoop_cons_some _ _ _ _ _ _ _ hs, hv]
  rfl

theorem updateLoop_cons_nosrc (rid sid : Nat) (rest : List Nat) (sz : Nat)
    (mem : Mem) (subs : List (Nat × CoSub)) (s : CoSub)
    (hs : alookup subs sid = some s) (hv : s.val = none) :
    updateLoop (some rid) (sid :: rest) sz mem subs =
      updateLoop (some rid) rest
        (ALIGN sz (co_type_alignof s.type) + co_type_sizeof s.type) mem
        (aset subs sid
          { s with val := some (rid, ALIGN sz (co_type_alignof s.type)) }) := by
  rw [updateLoop_cons_some _ _ _ _ _ _ _ hs, hv]
  rfl

theorem offsetOf_cons_none (subs : List (Nat × CoSub)) (t : Nat)
    (ts : List Nat) (sz sid : Nat) (hs : alookup subs t = none) :
    offsetOf subs (t :: ts) sz sid = offsetOf subs ts sz sid := by
  rw [offsetOf, hs]

theorem offsetOf_cons_self (subs : List (Nat × CoSub)) (ts : List Nat)
    (sz sid : Nat) (s : CoSub) (hs : alookup subs sid = some s) :
    offsetOf subs (sid :: ts) sz sid = ALIGN sz (co_type_alignof s.type) := by
  rw [offsetOf, hs]
  simp

theorem offsetOf_cons_ne (subs : List (Nat × CoSub)) (t : Nat) (ts : List Nat)
    (sz sid : Nat) (s : CoSub) (hs : alookup subs t = some s) (h : t ≠ sid) :
    offsetOf subs (t :: ts) sz sid =
      offsetOf subs ts
        (ALIGN sz (co_type_alignof s.type) + co_type_sizeof s.type) sid := by
  rw [offsetOf, hs]
  simp [h]

theorem offsetOf_congr (subs1 subs2 : List (Nat × CoSub)) (ts : List Nat)
    (h : ∀ x ∈ ts, alookup subs1 x = alookup subs2 x) :
    ∀ sz sid, offsetOf subs1 ts sz sid = offsetOf subs2 ts sz sid := by
  induction ts with
  | nil => intro sz sid; rfl
  | cons t rest ih =>
    intro sz sid
    have ht : alookup subs1 t = alookup subs2 t :=
      h t (List.mem_cons_self _ _)
    have hr : ∀ x ∈ rest, alookup subs1 x = alookup subs2 x :=
      fun x hx => h x (List.mem_cons_of_mem _ hx)
    rcases he : alookup subs2 t with _ | s
    · rw [offsetOf_cons_none _ _ _ _ _ (ht.trans he),
        offsetOf_cons_none _ _ _ _ _ he]
      exact ih hr sz sid
    · by_cases hts : t = sid
      · subst hts
        rw [offsetOf_cons_self _ _ _ _ _ (ht.trans he),
          offsetOf_cons_self _ _ _ _ _ he]
      · rw [offsetOf_cons_ne _ _ _ _ _ _ (ht.trans he) hts,
          offsetOf_cons_ne _ _ _ _ _ _ he hts]
        exact ih hr _ sid

theorem offsetOf_ge (subs : List (Nat × CoSub)) (ts : List Nat) :
    ∀ sz sid, sid ∈ ts → (∀ x ∈ ts, alookup subs x ≠ none) →
    sz ≤ offsetOf subs ts sz sid := by
  induction ts with
  | nil => intro sz sid h; exact absurd h (List.not_mem_nil _)
  | cons t rest ih =>
    intro sz sid hmem hdom
    rcases hs : alookup subs t with _ | s
    · exact absurd hs (hdom t (List.mem_cons_self _ _))
    · by_cases hts : t = sid
      · subst hts
        rw [offsetOf_cons_self _ _ _ _ _ hs]
        exact le_ALIGN_alignof sz s.type
      · rw [offsetOf_cons_ne _ _ _ _ _ _ hs hts]
        have hmem2 : sid ∈ rest := by
          rcases List.mem_cons.mp hmem with h | h
          · exact absurd h.symm hts
          · exact h
        have h1 := le_ALIGN_alignof sz s.type
        have h2 := ih (ALIGN sz (co_type_alignof s.type) + co_type_sizeof s.type)
          sid hmem2 fun x hx => hdom x (List.mem_cons_of_mem _ hx)
        omega

theorem offsetOf_distinct (subs : List (Nat × CoSub)) (ts : List Nat) :
    ∀ sz sid1 sid2, ts.Nodup → (∀ x ∈ ts, alookup subs x ≠ none) →
    (∀ x ∈ ts, ∀ s : CoSub, alookup subs x = some s →
      0 < co_type_sizeof s.type) →
    sid1 ∈ ts → sid2 ∈ ts → sid1 ≠ sid2 →
    offsetOf subs ts sz sid1 ≠ offsetOf subs ts sz sid2 := by
  induction ts with
  | nil => intro sz sid1 sid2 _ _ _ h; exact absurd h (List.not_mem_nil _)
  | cons t rest ih =>
    intro sz sid1 sid2 hnd hdom hsize hm1 hm2 hne
    rcases hs : alookup subs t with _ | s
    · exact absurd hs (hdom t (List.mem_cons_self _ _))
    have hdomr : ∀ x ∈ rest, alookup subs x ≠ none :=
      fun x hx => hdom x (List.mem_cons_of_mem _ hx)
    have hpos : 0 < co_type_sizeof s.type :=
      hsize t (List.mem_cons_self _ _) s hs
    have hkey : ∀ sid, sid ∈ rest →
        offsetOf subs (t :: rest) sz t ≠ offsetOf subs (t :: rest) sz sid := by
      intro sid hsid
      have htm : t ≠ sid := by
        intro h
        rw [List.nodup_cons] at hnd
        exact hnd.1 (h ▸ hsid)
      rw [offsetOf_cons_self _ _ _ _ _ hs, offsetOf_cons_ne _ _ _ _ _ _ hs htm]
      have hge := offsetOf_ge subs rest
        (ALIGN sz (co_type_alignof s.type) + co_type_sizeof s.type) sid hsid
        hdomr
      omega
    rcases List.mem_cons.mp hm1 with h1 | h1 <;>
      rcases List.mem_cons.mp hm2 with h2 | h2
    · exact absurd (h1.trans h2.symm) hne
    · subst h1
      exact hkey sid2 h2
    · subst h2
      exact fun h => (hkey sid1 h1) h.symm
    · rw [List.nodup_cons] at hnd
      have htm1 : t ≠ sid1 := fun h => hnd.1 (h ▸ h1)
      have htm2 : t ≠ sid2 := fun h => hnd.1 (h ▸ h2)
      rw [offsetOf_cons_ne _ _ _ _ _ _ hs htm1,
        offsetOf_cons_ne _ _ _ _ _ _ hs htm2]
      exact ih _ sid1 sid2 hnd.2 hdomr
        (fun x hx => hsize x (List.mem_cons_of_mem _ hx)) h1 h2 hne

theorem sizeLoop_le (subs : List (Nat × CoSub)) (ts : List Nat) :
    ∀ sz, sz ≤ sizeLoop subs ts sz := by
  induction ts with
  | nil => intro sz; exact Nat.le_refl _
  | cons t rest ih =>
    intro sz
    rcases hs : alookup subs t with _ | s
    · rw [sizeLoop, hs]
      exact ih sz
    · rw [sizeLoop, hs]
      refine le_trans (le_ALIGN_alignof sz s.type) ?_
      exact le_trans (Nat.le_add_right _ _) (ih _)

theorem sizeLoop_cons_some (subs : List (Nat × CoSub)) (t : Nat)
    (ts : List Nat) (sz : Nat) (s : CoSub) (hs : alookup subs t = some s) :
    sizeLoop subs (t :: ts) sz =
      sizeLoop subs ts
        (ALIGN sz (co_type_alignof s.type) + co_type_sizeof s.type) := by
  rw [sizeLoop, hs]

theorem sizeLoop_pos (subs : List (Nat × CoSub)) (t : Nat) (ts : List Nat)
    (s : CoSub) (hs : alookup subs t = some s)
    (hpos : 0 < co_type_sizeof s.type) : 0 < sizeLoop subs (t :: ts) 0 := by
  rw [sizeLoop_cons_some _ _ _ _ _ hs]
  have h := sizeLoop_le subs ts
    (ALIGN 0 (co_type_alignof s.type) + co_type_sizeof s.type)
  omega

theorem mem_read_write_eq (m : Mem) (p : RegPtr) (v : Int) :
    (m.write p v).read p = v :=
  storeRead_cons_eq _ _ _

theorem mem_read_write_ne (m : Mem) (q p : RegPtr) (v : Int) (h : q ≠ p) :
    (m.write q v).read p = m.read p :=
  storeRead_cons_ne _ _ _ _ h

theorem mem_move_read_dst (m : Mem) (dst src : RegPtr) (h : src ≠ dst) :
    (m.move dst src).read dst = m.read src := by
  rw [Mem.move, mem_read_write_ne _ _ _ _ h, mem_read_write_eq]

theorem mem_move_read_other (m : Mem) (dst src p : RegPtr) (h1 : dst ≠ p)
    (h2 : src ≠ p) : (m.move dst src).read p = m.read p := by
  rw [Mem.move, mem_read_write_ne _ _ _ _ h2, mem_read_write_ne _ _ _ _ h1]

theorem mem_move_next (m : Mem) (dst src : RegPtr) :
    (m.move dst src).next = m.next :=
  rfl

theorem mem_move_store (m : Mem) (dst src : RegPtr) (sl : RegPtr × Int)
    (h : sl ∈ (m.move dst src).store) :
    sl = (src, 0) ∨ sl = (dst, m.read src) ∨ sl ∈ m.store := by
  rcases List.mem_cons.mp h with h | h
  · exact Or.inl h
  · rcases List.mem_cons.mp h with h | h
    · exact Or.inr (Or.inl h)
    · exact Or.inr (Or.inr h)

theorem mem_read_absent (m : Mem) (p : RegPtr)
    (h : ∀ sl ∈ m.store, sl.1 ≠ p) : m.read p = 0 :=
  storeRead_absent _ _ h

/--
Master specification of the recomputation loop on a fresh region rid: the
key set is unchanged; identifiers outside the tree are untouched; every
tree identifier's sub-object gets its recomputed offset in region rid and
its new slot reads back its old value (zero when it had none); cells
outside region rid that are no sub-object's old value are untouched; cells
of region rid below the starting offset are untouched; the allocation
counter is unchanged; all cells stay in regions at most rid.
-/
theorem updateLoop_spec (rid : Nat) (ts : List Nat) :
    ∀ (sz : Nat) (mem : Mem) (subs : List (Nat × CoSub)),
    ts.Nodup →
    (∀ sid ∈ ts, alookup subs sid ≠ none) →
    (∀ sid ∈ ts, ∀ s : CoSub, alookup subs sid = some s →
      0 < co_type_sizeof s.type) →
    (∀ sid ∈ ts, ∀ s : CoSub, alookup subs sid = some s →
      ∀ p : RegPtr, s.val = some p → p.1 < rid) →
    (∀ sid1 ∈ ts, ∀ sid2 ∈ ts, sid1 ≠ sid2 →
      ∀ s1 s2 : CoSub, alookup subs sid1 = some s1 →
        alookup subs sid2 = some s2 →
      ∀ p1 p2 : RegPtr, s1.val = some p1 → s2.val = some p2 → p1 ≠ p2) →
    (∀ sl ∈ mem.store, sl.1.1 = rid → sl.1.2 < sz) →
    (∀ sl ∈ mem.store, sl.1.1 ≤ rid) →
    ((updateLoop (some rid) ts sz mem subs).2.2.map Prod.fst =
      subs.map Prod.fst) ∧
    (∀ x, x ∉ ts →
      alookup (updateLoop (some rid) ts sz mem subs).2.2 x =
        alookup subs x) ∧
    (∀ x ∈ ts, ∀ s0 : CoSub, alookup subs x = some s0 →
      alookup (updateLoop (some rid) ts sz mem subs).2.2 x =
        some { s0 with val := some (rid, offsetOf subs ts sz x) }) ∧
    (∀ x ∈ ts, ∀ s0 : CoSub, alookup subs x = some s0 →
      (updateLoop (some rid) ts sz mem subs).2.1.read
          (rid, offsetOf subs ts sz x) =
        (match s0.val with
          | some p => mem.read p
          | none => 0)) ∧
    (∀ p : RegPtr, p.1 ≠ rid →
      (∀ x ∈ ts, ∀ s0 : CoSub, alookup subs x = some s0 →
        s0.val ≠ some p) →
      (updateLoop (some rid) ts sz mem subs).2.1.read p = mem.read p) ∧
    (∀ p : RegPtr, p.1 = rid → p.2 < sz →
      (updateLoop (some rid) ts sz mem subs).2.1.read p = mem.read p) ∧
    ((updateLoop (some rid) ts sz mem subs).2.1.next = mem.next) ∧
    (∀ sl ∈ (updateLoop (some rid) ts sz mem subs).2.1.store,
      sl.1.1 ≤ rid) := by
  induction ts with
  | nil =>
    intro sz mem subs _ _ _ _ _ _ hstorele
    refine ⟨rfl, fun x _ => rfl, ?_, ?_, fun p _ _ => rfl, fun p _ _ => rfl,
      rfl, hstorele⟩
    · intro x hx
      exact absurd hx (List.not_mem_nil _)
    · intro x hx
      exact absurd hx (List.not_mem_nil _)
  | cons sid rest ih =>
    intro sz mem subs hnd hdom hsize hsrc hdist hstore hstorele
    rw [List.nodup_cons] at hnd
    rcases hs : alookup subs sid with _ | s
    · exact absurd hs (hdom sid (List.mem_cons_self _ _))
    have hsz_pos : 0 < co_type_sizeof s.type :=
      hsize sid (List.mem_cons_self _ _) s hs
    have hoff_ge : sz ≤ ALIGN sz (co_type_alignof s.type) :=
      le_ALIGN_alignof sz s.type
    set off := ALIGN sz (co_type_alignof s.type) with hoffdef
    set szn := off + co_type_sizeof s.type with hszndef
    set s1 : CoSub := { s with val := some (rid, off) } with hs1def
    set subs1 := aset subs sid s1 with hsubs1def
    have hlookup1 : alookup subs1 sid = some s1 :=
      alookup_aset_eq _ _ _ (by rw [hs]; exact fun h => Option.noConfusion h)
    have hlookup2 : ∀ x, x ≠ sid → alookup subs1 x = alookup subs x :=
      fun x hx => alookup_aset_ne _ _ _ _ fun h => hx h.symm
    have hmemne : ∀ x, x ∈ rest → x ≠ sid := fun x hx h => hnd.1 (h ▸ hx)
    have hdom1 : ∀ x ∈ rest, alookup subs1 x ≠ none := by
      intro x hx
      rw [hlookup2 x (hmemne x hx)]
      exact hdom x (List.mem_cons_of_mem _ hx)
    have hsize1 : ∀ x ∈ rest, ∀ s0 : CoSub, alookup subs1 x = some s0 →
        0 < co_type_sizeof s0.type := by
      intro x hx s0 h0
      rw [hlookup2 x (hmemne x hx)] at h0
      exact hsize x (List.mem_cons_of_mem _ hx) s0 h0
    have hsrc1 : ∀ x ∈ rest, ∀ s0 : CoSub, alookup subs1 x = some s0 →
        ∀ p : RegPtr, s0.val = some p → p.1 < rid := by
      intro x hx s0 h0
      rw [hlookup2 x (hmemne x hx)] at h0
      exact hsrc x (List.mem_cons_of_mem _ hx) s0 h0
    have hdist1 : ∀ x1 ∈ rest, ∀ x2 ∈ rest, x1 ≠ x2 →
        ∀ t1 t2 : CoSub, alookup subs1 x1 = some t1 →
          alookup subs1 x2 = some t2 →
        ∀ p1 p2 : RegPtr, t1.val = some p1 → t2.val = some p2 → p1 ≠ p2 := by
      intro x1 hx1 x2 hx2 hne t1 t2 h1 h2
      rw [hlookup2 x1 (hmemne x1 hx1)] at h1
      rw [hlookup2 x2 (hmemne x2 hx2)] at h2
      exact hdist x1 (List.mem_cons_of_mem _ hx1) x2
        (List.mem_cons_of_mem _ hx2) hne t1 t2 h1 h2
    have hoff_x : ∀ x ∈ rest,
        offsetOf subs (sid :: rest) sz x = offsetOf subs1 rest szn x := by
      intro x hx
      rw [offsetOf_cons_ne subs sid rest sz x s hs
        fun h => (hmemne x hx) h.symm]
      exact (offsetOf_congr subs1 subs rest
        (fun y hy => hlookup2 y (hmemne y hy)) szn x).symm
    have hoff_self : offsetOf subs (sid :: rest) sz sid = off :=
      offsetOf_cons_self subs rest sz sid s hs
    rcases hv : s.val with _ | src
    · -- no previous value: the memory is untouched by this step
      rw [updateLoop_cons_nosrc rid sid rest sz mem subs s hs hv, ← hoffdef,
        ← hszndef, ← hs1def, ← hsubs1def]
      have hstore1 : ∀ sl ∈ mem.store, sl.1.1 = rid → sl.1.2 < szn := by
        intro sl hsl hr
        have h1 := hstore sl hsl hr
        omega
      obtain ⟨ihkeys, ihout, ihsub, ihval, ihmem, ihrid, ihnext, ihstore⟩ :=
        ih szn mem subs1 hnd.2 hdom1 hsize1 hsrc1 hdist1 hstore1 hstorele
      have hreadoff : mem.read (rid, off) = 0 := by
        refine mem_read_absent _ _ ?_
        intro sl hsl he
        have h1 := hstore sl hsl (by rw [he])
        rw [he] at h1
        simp only at h1
        omega
      refine ⟨?_, ?_, ?_, ?_, ?_, ?_, ?_, ?_⟩
      · rw [ihkeys, hsubs1def, aset_keys]
      · intro x hx
        have hx1 : x ≠ sid := fun h => hx (h ▸ List.mem_cons_self _ _)
        have hx2 : x ∉ rest := fun h => hx (List.mem_cons_of_mem _ h)
        rw [ihout x hx2, hlookup2 x hx1]
      · intro x hx s0 h0
        rcases List.mem_cons.mp hx with rfl | hx2
        · rw [hs] at h0
          obtain rfl := Option.some.inj h0
          rw [ihout x hnd.1, hlookup1, hoff_self]
        · rw [hoff_x x hx2]
          refine ihsub x hx2 s0 ?_
          rw [hlookup2 x (hmemne x hx2), h0]
      · intro x hx s0 h0
        rcases List.mem_cons.mp hx with rfl | hx2
        · rw [hs] at h0
          obtain rfl := Option.some.inj h0
          rw [hoff_self, hv]
          rw [ihrid (rid, off) rfl (by simp only; omega)]
          exact hreadoff
        · rw [hoff_x x hx2]
          have h1 := ihval x hx2 s0
            (by rw [hlookup2 x (hmemne x hx2), h0])
          exact h1
      · intro p hp hnosrc
        refine ihmem p hp ?_
        intro x hx s0 h0
        rw [hlookup2 x (hmemne x hx)] at h0
        exact hnosrc x (List.mem_cons_of_mem _ hx) s0 h0
      · intro p hp hlt
        exact ihrid p hp (by omega)
      · exact ihnext
      · exact ihstore
    · -- a previous value: it is moved from src into the new slot
      rw [updateLoop_cons_src rid sid rest sz mem subs s src hs hv, ← hoffdef,
        ← hszndef, ← hs1def, ← hsubs1def]
      have hsrclt : src.1 < rid :=
        hsrc sid (List.mem_cons_self _ _) s hs src hv
      have hsrc_ne_dst : src ≠ (rid, off) := by
        intro h
        rw [h] at hsrclt
        simp only at hsrclt
        omega
      have hm1_next : (mem.move (rid, off) src).next = mem.next := rfl
      have hstore1 : ∀ sl ∈ (mem.move (rid, off) src).store, sl.1.1 = rid →
          sl.1.2 < szn := by
        intro sl hsl hr
        rcases mem_move_store mem (rid, off) src sl hsl with rfl | rfl | h
        · simp only at hr
          omega
        · simp only
          omega
        · have h1 := hstore sl h hr
          omega
      have hstorele1 : ∀ sl ∈ (mem.move (rid, off) src).store,
          sl.1.1 ≤ rid := by
        intro sl hsl
        rcases mem_move_store mem (rid, off) src sl hsl with rfl | rfl | h
        · simp only
          omega
        · simp only
          omega
        · exact hstorele sl h
      obtain ⟨ihkeys, ihout, ihsub, ihval, ihmem, ihrid, ihnext, ihstore⟩ :=
        ih szn (mem.move (rid, off) src) subs1 hnd.2 hdom1 hsize1 hsrc1
          hdist1 hstore1 hstorele1
      refine ⟨?_, ?_, ?_, ?_, ?_, ?_, ?_, ?_⟩
      · rw [ihkeys, hsubs1def, aset_keys]
      · intro x hx
        have hx1 : x ≠ sid := fun h => hx (h ▸ List.mem_cons_self _ _)
        have hx2 : x ∉ rest := fun h => hx (List.mem_cons_of_mem _ h)
        rw [ihout x hx2, hlookup2 x hx1]
      · intro x hx s0 h0
        rcases List.mem_cons.mp hx with rfl | hx2
        · rw [hs] at h0
          obtain rfl := Option.some.inj h0
          rw [ihout x hnd.1, hlookup1, hoff_self]
        · rw [hoff_x x hx2]
          refine ihsub x hx2 s0 ?_
          rw [hlookup2 x (hmemne x hx2), h0]
      · intro x hx s0 h0
        rcases List.mem_cons.mp hx with rfl | hx2
        · rw [hs] at h0
          obtain rfl := Option.some.inj h0
          rw [hoff_self, hv]
          rw [ihrid (rid, off) rfl (by simp only; omega)]
          exact mem_move_read_dst mem (rid, off) src hsrc_ne_dst
        · rw [hoff_x x hx2]
          have h1 := ihval x hx2 s0
            (by rw [hlookup2 x (hmemne x hx2), h0])
          rw [h1]
          rcases hs0v : s0.val with _ | p
          · rfl
          · have hps : p.1 < rid :=
              hsrc x (List.mem_cons_of_mem _ hx2) s0 h0 p hs0v
            have hpd : (rid, off) ≠ p := by
              intro h
              rw [← h] at hps
              simp only at hps
              omega
            have hpsrc : src ≠ p := by
              refine hdist sid (List.mem_cons_self _ _) x
                (List.mem_cons_of_mem _ hx2)
                (fun h => (hmemne x hx2) h.symm) s s0 hs h0 src p hv hs0v
            exact mem_move_read_other mem (rid, off) src p hpd hpsrc
      · intro p hp hnosrc
        have h1 : ∀ x ∈ rest, ∀ s0 : CoSub, alookup subs1 x = some s0 →
            s0.val ≠ some p := by
          intro x hx s0 h0
          rw [hlookup2 x (hmemne x hx)] at h0
          exact hnosrc x (List.mem_cons_of_mem _ hx) s0 h0
        rw [ihmem p hp h1]
        have hpd : (rid, off) ≠ p := by
          intro h
          rw [← h] at hp
          simp only at hp
          exact hp rfl
        have hpsrc : src ≠ p := by
          intro h
          exact hnosrc sid (List.mem_cons_self _ _) s hs (h ▸ hv)
        exact mem_move_read_other mem (rid, off) src p hpd hpsrc
      · intro p hp hlt
        rw [ihrid p hp (by omega)]
        have hpd : (rid, off) ≠ p := by
          intro h
          rw [← h] at hlt
          simp only at hlt
          omega
        have hpsrc : src ≠ p := by
          intro h
          rw [h] at hsrclt
          omega
        exact mem_move_read_other mem (rid, off) src p hpd hpsrc
      · rw [ihnext, hm1_next]
      · exact ihstore

/-! ## Shared lemmas on trees and worlds -/

theorem alookup_ne_none_of_key_mem {α : Type} (m : List (Nat × α)) (k : Nat)
    (h : k ∈ m.map Prod.fst) : alookup m k ≠ none := by
  induction m with
  | nil => exact absurd h (List.not_mem_nil _)
  | cons e rest ih =>
    rw [alookup]
    by_cases hk : e.1 = k
    · rw [if_pos hk]
      exact fun h => Option.noConfusion h
    · rw [if_neg hk]
      rcases List.mem_cons.mp h with h | h
      · exact absurd h.symm hk
      · exact ih h

theorem key_mem_of_alookup {α : Type} (m : List (Nat × α)) (k : Nat) (a : α)
    (h : alookup m k = some a) : k ∈ m.map Prod.fst := by
  have := mem_of_alookup m k a h
  exact List.mem_map_of_mem Prod.fst this

theorem treeInsert_cons_none (subs : List (Nat × CoSub)) (t : Nat)
    (ts : List Nat) (k sid : Nat) (hs : alookup subs t = none) :
    treeInsert subs (t :: ts) k sid = t :: treeInsert subs ts k sid := by
  rw [treeInsert, hs]

theorem treeInsert_cons_lt (subs : List (Nat × CoSub)) (t : Nat)
    (ts : List Nat) (k sid : Nat) (s : CoSub) (hs : alookup subs t = some s)
    (hk : k < s.subidx) : treeInsert subs (t :: ts) k sid = sid :: t :: ts := by
  rw [treeInsert, hs]
  show (if k < s.subidx then sid :: t :: ts
    else t :: treeInsert subs ts k sid) = sid :: t :: ts
  rw [if_pos hk]

theorem treeInsert_cons_ge (subs : List (Nat × CoSub)) (t : Nat)
    (ts : List Nat) (k sid : Nat) (s : CoSub) (hs : alookup subs t = some s)
    (hk : ¬k < s.subidx) :
    treeInsert subs (t :: ts) k sid = t :: treeInsert subs ts k sid := by
  rw [treeInsert, hs]
  show (if k < s.subidx then sid :: t :: ts
    else t :: treeInsert subs ts k sid) = t :: treeInsert subs ts k sid
  rw [if_neg hk]

theorem mem_treeInsert (subs : List (Nat × CoSub)) (tree : List Nat)
    (k sid x : Nat) : x ∈ treeInsert subs tree k sid ↔ x = sid ∨ x ∈ tree := by
  induction tree with
  | nil =>
    rw [treeInsert]
    simp
  | cons t rest ih =>
    rcases hs : alookup subs t with _ | s
    · rw [treeInsert_cons_none _ _ _ _ _ hs]
      simp only [List.mem_cons, ih]
      tauto
    · by_cases hk : k < s.subidx
      · rw [treeInsert_cons_lt _ _ _ _ _ _ hs hk]
        simp only [List.mem_cons]
      · rw [treeInsert_cons_ge _ _ _ _ _ _ hs hk]
        simp only [List.mem_cons, ih]
        tauto

theorem treeInsert_nodup (subs : List (Nat × CoSub)) (tree : List Nat)
    (k sid : Nat) (hnd : tree.Nodup) (hsid : sid ∉ tree) :
    (treeInsert subs tree k sid).Nodup := by
  induction tree with
  | nil =>
    rw [treeInsert]
    exact List.nodup_singleton _
  | cons t rest ih =>
    rw [List.nodup_cons] at hnd
    have hsid2 : sid ∉ rest := fun h => hsid (List.mem_cons_of_mem _ h)
    have htsid : t ≠ sid := fun h => hsid (h ▸ List.mem_cons_self _ _)
    rcases hs : alookup subs t with _ | s
    · rw [treeInsert_cons_none _ _ _ _ _ hs, List.nodup_cons]
      refine ⟨?_, ih hnd.2 hsid2⟩
      rw [mem_treeInsert]
      rintro (h | h)
      · exact htsid h
      · exact hnd.1 h
    · by_cases hk : k < s.subidx
      · rw [treeInsert_cons_lt _ _ _ _ _ _ hs hk, List.nodup_cons,
          List.nodup_cons]
        refine ⟨?_, hnd.1, hnd.2⟩
        rw [List.mem_cons]
        rintro (h | h)
        · exact htsid h.symm
        · exact hsid2 h
      · rw [treeInsert_cons_ge _ _ _ _ _ _ hs hk, List.nodup_cons]
        refine ⟨?_, ih hnd.2 hsid2⟩
        rw [mem_treeInsert]
        rintro (h | h)
        · exact htsid h
        · exact hnd.1 h

theorem treeFind_eq_false (subs : List (Nat × CoSub)) (tree : List Nat)
    (k : Nat) (h : treeFind subs tree k = false) :
    ∀ t ∈ tree, ∀ s : CoSub, alookup subs t = some s → s.subidx ≠ k := by
  intro t ht s hs
  rw [treeFind, List.any_eq_false] at h
  have h2 := h t ht
  rw [hs] at h2
  simpa using h2

theorem subidxOf_congr (subs1 subs2 : List (Nat × CoSub)) (x : Nat)
    (h : alookup subs1 x = alookup subs2 x) :
    subidxOf subs1 x = subidxOf subs2 x := by
  rw [subidxOf, subidxOf, h]

theorem subidxOf_eq (subs : List (Nat × CoSub)) (x : Nat) (s : CoSub)
    (h : alookup subs x = some s) : subidxOf subs x = s.subidx := by
  rw [subidxOf, h]

theorem subPtrOf_congr (subs1 subs2 : List (Nat × CoSub)) (x : Nat)
    (h : alookup subs1 x = alookup subs2 x) :
    subPtrOf subs1 x = subPtrOf subs2 x := by
  rw [subPtrOf, subPtrOf, h]

theorem subPtrOf_eq (subs : List (Nat × CoSub)) (x : Nat) (s : CoSub)
    (h : alookup subs x = some s) : subPtrOf subs x = s.val := by
  rw [subPtrOf, h]

theorem mem_aset_ne {α : Type} (m : List (Nat × α)) (k : Nat) (b : α)
    (e : Nat × α) (hnd : (m.map Prod.fst).Nodup) (h : e ∈ aset m k b) :
    e = (k, b) ∨ (e ∈ m ∧ e.1 ≠ k) := by
  induction m with
  | nil =>
    rw [aset] at h
    exact absurd h (List.not_mem_nil _)
  | cons e0 rest ih =>
    rw [List.map_cons, List.nodup_cons] at hnd
    by_cases hk : e0.1 = k
    · rw [aset, if_pos hk] at h
      rcases List.mem_cons.mp h with h | h
      · subst hk
        exact Or.inl (by rw [h])
      · refine Or.inr ⟨List.mem_cons_of_mem _ h, ?_⟩
        intro he
        refine hnd.1 ?_
        rw [hk, ← he]
        exact List.mem_map_of_mem Prod.fst h
    · rw [aset, if_neg hk] at h
      rcases List.mem_cons.mp h with h | h
      · refine Or.inr ⟨h ▸ List.mem_cons_self _ _, ?_⟩
        rw [h]
        exact hk
      · rcases ih hnd.2 h with h | ⟨h2, h3⟩
        · exact Or.inl h
        · exact Or.inr ⟨List.mem_cons_of_mem _ h2, h3⟩

theorem subOwnedBy_congr (subs1 subs2 : List (Nat × CoSub)) (x oid : Nat)
    (h : alookup subs1 x = alookup subs2 x) :
    subOwnedBy subs1 x oid = subOwnedBy subs2 x oid := by
  rw [subOwnedBy, subOwnedBy, h]

theorem subPtrInRegion_congr (subs1 subs2 : List (Nat × CoSub)) (x : Nat)
    (v : Option Nat) (h : alookup subs1 x = alookup subs2 x) :
    subPtrInRegion subs1 x v = subPtrInRegion subs2 x v := by
  rw [subPtrInRegion, subPtrInRegion, h]

theorem ownerConsistent_none (objs : List (Nat × CoObj)) (se : Nat × CoSub)
    (h : se.2.obj = none) : ownerConsistent objs se = true := by
  rw [ownerConsistent, h]

theorem ownerConsistent_some (objs : List (Nat × CoObj)) (se : Nat × CoSub)
    (o : Nat) (h : se.2.obj = some o) :
    ownerConsistent objs se = objHasSub objs o se.1 := by
  rw [ownerConsistent, h]

theorem objHasSub_eq (objs : List (Nat × CoObj)) (o : Nat) (obj : CoObj)
    (x : Nat) (h : alookup objs o = some obj) :
    objHasSub objs o x = obj.tree.contains x := by
  rw [objHasSub, h]

/--
Well-formedness is preserved by the membership change of co_obj_insert_sub
(owner pointer set, identifier inserted into the tree), before the value
region is rebuilt.
-/
theorem WF_insert_pre (w : World) (oid sid : Nat) (obj : CoObj) (sub : CoSub)
    (hWF : WF w) (hobj : alookup w.objs oid = some obj)
    (hsub : alookup w.subs sid = some sub) (hdet : sub.obj = none)
    (hfind : treeFind w.subs obj.tree sub.subidx = false) :
    WF { mem := w.mem,
         subs := aset w.subs sid { sub with obj := some oid },
         objs := aset w.objs oid
           { obj with tree := treeInsert w.subs obj.tree sub.subidx sid } } := by
  obtain ⟨h1, h2, h3, h4, h5, h6, h7, h8, h9, h10, h11, h12, h13⟩ := hWF
  have hobjmem : (oid, obj) ∈ w.objs := mem_of_alookup _ _ _ hobj
  have hsubmem : (sid, sub) ∈ w.subs := mem_of_alookup _ _ _ hsub
  have hvalnone : sub.val = none := h9 (sid, sub) hsubmem hdet
  have hsidnotin : ∀ oe ∈ w.objs, sid ∉ oe.2.tree := by
    intro oe hoe hmem
    have h := h5 oe hoe sid hmem
    rw [subOwnedBy, hsub] at h
    simp only [decide_eq_true_eq] at h
    rw [h] at hdet
    exact Option.noConfusion hdet
  have lk_sid : alookup (aset w.subs sid { sub with obj := some oid }) sid =
      some { sub with obj := some oid } :=
    alookup_aset_eq _ _ _ (by rw [hsub]; exact fun h => Option.noConfusion h)
  have lk_ne : ∀ x, x ≠ sid →
      alookup (aset w.subs sid { sub with obj := some oid }) x =
        alookup w.subs x :=
    fun x hx => alookup_aset_ne _ _ _ _ fun h => hx h.symm
  have hsubidxeq : ∀ x,
      subidxOf (aset w.subs sid { sub with obj := some oid }) x =
        subidxOf w.subs x := by
    intro x
    by_cases hx : x = sid
    · subst hx
      rw [subidxOf, subidxOf, lk_sid, hsub]
    · exact subidxOf_congr _ _ x (lk_ne x hx)
  have hptreq : ∀ x,
      subPtrOf (aset w.subs sid { sub with obj := some oid }) x =
        subPtrOf w.subs x := by
    intro x
    by_cases hx : x = sid
    · subst hx
      rw [subPtrOf, subPtrOf, lk_sid, hsub]
    · exact subPtrOf_congr _ _ x (lk_ne x hx)
  have lko_oid : alookup (aset w.objs oid
      { obj with tree := treeInsert w.subs obj.tree sub.subidx sid }) oid =
      some { obj with tree := treeInsert w.subs obj.tree sub.subidx sid } :=
    alookup_aset_eq _ _ _ (by rw [hobj]; exact fun h => Option.noConfusion h)
  have lko_ne : ∀ o, o ≠ oid →
      alookup (aset w.objs oid
        { obj with tree := treeInsert w.subs obj.tree sub.subidx sid }) o =
        alookup w.objs o :=
    fun o ho => alookup_aset_ne _ _ _ _ fun h => ho h.symm
  have hdomT : ∀ x ∈ obj.tree, ∀ s : CoSub, alookup w.subs x = some s →
      s.subidx ≠ sub.subidx :=
    treeFind_eq_false _ _ _ hfind
  have hTsome : ∀ x ∈ obj.tree, alookup w.subs x ≠ none := by
    intro x hx h
    have h5x := h5 (oid, obj) hobjmem x hx
    rw [subOwnedBy, h] at h5x
    exact Bool.noConfusion h5x
  refine ⟨?_, ?_, ?_, ?_, ?_, ?_, ?_, ?_, ?_, ?_, ?_, ?_, ?_⟩
  · rw [aset_keys]
    exact h1
  · rw [aset_keys]
    exact h2
  · intro oe hoe
    rcases mem_aset _ _ _ _ hoe with rfl | hoe2
    · exact treeInsert_nodup _ _ _ _ (h3 (oid, obj) hobjmem)
        (hsidnotin (oid, obj) hobjmem)
    · exact h3 oe hoe2
  · intro oe hoe s1 hs1 s2 hs2 hne
    rw [hsubidxeq, hsubidxeq]
    rcases mem_aset _ _ _ _ hoe with rfl | hoe2
    · simp only at hs1 hs2
      rw [mem_treeInsert] at hs1 hs2
      rcases hs1 with rfl | hs1 <;> rcases hs2 with rfl | hs2
      · exact absurd rfl hne
      · rcases ho : alookup w.subs s2 with _ | t2
        · exact absurd ho (hTsome s2 hs2)
        · rw [subidxOf_eq _ _ _ hsub, subidxOf_eq _ _ _ ho]
          exact fun h => (hdomT s2 hs2 t2 ho) h.symm
      · rcases ho : alookup w.subs s1 with _ | t1
        · exact absurd ho (hTsome s1 hs1)
        · rw [subidxOf_eq _ _ _ hsub, subidxOf_eq _ _ _ ho]
          exact fun h => (hdomT s1 hs1 t1 ho) h
      · exact h4 (oid, obj) hobjmem s1 hs1 s2 hs2 hne
    · exact h4 oe hoe2 s1 hs1 s2 hs2 hne
  · intro oe hoe x hx
    rcases mem_aset _ _ _ _ hoe with rfl | hoe2
    · simp only at hx ⊢
      rw [mem_treeInsert] at hx
      rcases hx with rfl | hx
      · rw [subOwnedBy, lk_sid]
        simp
      · have hxs : x ≠ sid := fun h => hsidnotin (oid, obj) hobjmem (h ▸ hx)
        rw [subOwnedBy, lk_ne x hxs]
        have h5x := h5 (oid, obj) hobjmem x hx
        rw [subOwnedBy] at h5x
        exact h5x
    · have hxs : x ≠ sid := fun h => hsidnotin oe hoe2 (h ▸ hx)
      rw [subOwnedBy, lk_ne x hxs]
      have h5x := h5 oe hoe2 x hx
      rw [subOwnedBy] at h5x
      exact h5x
  · intro oe hoe x hx
    rcases mem_aset _ _ _ _ hoe with rfl | hoe2
    · simp only at hx ⊢
      rw [mem_treeInsert] at hx
      rcases hx with rfl | hx
      · rw [subPtrInRegion, lk_sid]
        simp only
        rw [hvalnone]
      · have hxs : x ≠ sid := fun h => hsidnotin (oid, obj) hobjmem (h ▸ hx)
        rw [subPtrInRegion, lk_ne x hxs]
        have h6x := h6 (oid, obj) hobjmem x hx
        rw [subPtrInRegion] at h6x
        exact h6x
    · have hxs : x ≠ sid := fun h => hsidnotin oe hoe2 (h ▸ hx)
      rw [subPtrInRegion, lk_ne x hxs]
      have h6x := h6 oe hoe2 x hx
      rw [subPtrInRegion] at h6x
      exact h6x
  · intro oe hoe s1 hs1 s2 hs2 hne
    rw [hptreq, hptreq]
    rcases mem_aset _ _ _ _ hoe with rfl | hoe2
    · simp only at hs1 hs2
      rw [mem_treeInsert] at hs1 hs2
      rcases hs1 with rfl | hs1 <;> rcases hs2 with rfl | hs2
      · exact absurd rfl hne
      · rw [subPtrOf_eq _ _ _ hsub, hvalnone]
        rfl
      · rw [subPtrOf_eq _ _ _ hsub, hvalnone]
        rcases subPtrOf w.subs s1 with _ | p <;> rfl
      · exact h7 (oid, obj) hobjmem s1 hs1 s2 hs2 hne
    · exact h7 oe hoe2 s1 hs1 s2 hs2 hne
  · intro se hse
    rcases mem_aset _ _ _ _ hse with rfl | hse2
    · rw [ownerConsistent_some _ _ oid rfl, objHasSub_eq _ _ _ _ lko_oid]
      exact List.elem_eq_true_of_mem
        ((mem_treeInsert _ _ _ _ _).mpr (Or.inl rfl))
    · have h8x := h8 se hse2
      rcases hso : se.2.obj with _ | o
      · rw [ownerConsistent_none _ _ hso]
      · rw [ownerConsistent_some _ _ _ hso]
        rw [ownerConsistent_some _ _ _ hso] at h8x
        by_cases ho : o = oid
        · subst ho
          rw [objHasSub_eq _ _ _ _ lko_oid]
          rw [objHasSub_eq _ _ _ _ hobj] at h8x
          exact List.elem_eq_true_of_mem
            ((mem_treeInsert _ _ _ _ _).mpr
              (Or.inr (List.mem_of_elem_eq_true h8x)))
        · rw [objHasSub, lko_ne o ho, ← objHasSub]
          exact h8x
  · intro se hse
    rcases mem_aset _ _ _ _ hse with rfl | hse2
    · intro h
      exact Option.noConfusion h
    · exact h9 se hse2
  · intro se hse
    rcases mem_aset _ _ _ _ hse with rfl | hse2
    · exact h10 (sid, sub) hsubmem
    · exact h10 se hse2
  · intro oe hoe
    rcases mem_aset _ _ _ _ hoe with rfl | hoe2
    · exact h11 (oid, obj) hobjmem
    · exact h11 oe hoe2
  · intro oe1 hoe1 oe2 hoe2 hne
    rcases mem_aset _ _ _ _ hoe1 with rfl | hoe1b <;>
      rcases mem_aset _ _ _ _ hoe2 with rfl | hoe2b
    · exact absurd rfl hne
    · exact h12 (oid, obj) hobjmem oe2 hoe2b hne
    · exact h12 oe1 hoe1b (oid, obj) hobjmem hne
    · exact h12 oe1 hoe1b oe2 hoe2b hne
  · exact h13

/--
Well-formedness is preserved by the membership change of co_obj_remove_sub
(identifier removed from the tree, owner pointer and value pointer
cleared), before the value region is rebuilt.
-/
theorem WF_remove_pre (w : World) (oid sid : Nat) (obj : CoObj) (sub : CoSub)
    (hWF : WF w) (hobj : alookup w.objs oid = some obj)
    (hsub : alookup w.subs sid = some sub) (howner : sub.obj = some oid) :
    WF { mem := w.mem,
         subs := aset w.subs sid { sub with obj := none, val := none },
         objs := aset w.objs oid
           { obj with
             tree := obj.tree.filter (fun t => decide (t ≠ sid)) } } := by
  obtain ⟨h1, h2, h3, h4, h5, h6, h7, h8, h9, h10, h11, h12, h13⟩ := hWF
  have hobjmem : (oid, obj) ∈ w.objs := mem_of_alookup _ _ _ hobj
  have hsubmem : (sid, sub) ∈ w.subs := mem_of_alookup _ _ _ hsub
  have hsidnotin : ∀ oe ∈ w.objs, oe.1 ≠ oid → sid ∉ oe.2.tree := by
    intro oe hoe hne hmem
    have h := h5 oe hoe sid hmem
    rw [subOwnedBy, hsub] at h
    simp only [decide_eq_true_eq] at h
    rw [howner] at h
    exact hne (Option.some.inj h).symm
  have hmemfilter : ∀ x,
      x ∈ obj.tree.filter (fun t => decide (t ≠ sid)) ↔
        x ∈ obj.tree ∧ x ≠ sid := by
    intro x
    rw [List.mem_filter]
    simp
  have lk_sid : alookup (aset w.subs sid { sub with obj := none, val := none })
      sid = some { sub with obj := none, val := none } :=
    alookup_aset_eq _ _ _ (by rw [hsub]; exact fun h => Option.noConfusion h)
  have lk_ne : ∀ x, x ≠ sid →
      alookup (aset w.subs sid { sub with obj := none, val := none }) x =
        alookup w.subs x :=
    fun x hx => alookup_aset_ne _ _ _ _ fun h => hx h.symm
  have hsubidxeq : ∀ x,
      subidxOf (aset w.subs sid { sub with obj := none, val := none }) x =
        subidxOf w.subs x := by
    intro x
    by_cases hx : x = sid
    · subst hx
      rw [subidxOf, subidxOf, lk_sid, hsub]
    · exact subidxOf_congr _ _ x (lk_ne x hx)
  have lko_oid : alookup (aset w.objs oid
      { obj with tree := obj.tree.filter (fun t => decide (t ≠ sid)) }) oid =
      some { obj with
        tree := obj.tree.filter (fun t => decide (t ≠ sid)) } :=
    alookup_aset_eq _ _ _ (by rw [hobj]; exact fun h => Option.noConfusion h)
  have lko_ne : ∀ o, o ≠ oid →
      alookup (aset w.objs oid
        { obj with
          tree := obj.tree.filter (fun t => decide (t ≠ sid)) }) o =
        alookup w.objs o :=
    fun o ho => alookup_aset_ne _ _ _ _ fun h => ho h.symm
  refine ⟨?_, ?_, ?_, ?_, ?_, ?_, ?_, ?_, ?_, ?_, ?_, ?_, ?_⟩
  · rw [aset_keys]
    exact h1
  · rw [aset_keys]
    exact h2
  · intro oe hoe
    rcases mem_aset _ _ _ _ hoe with rfl | hoe2
    · exact (h3 (oid, obj) hobjmem).filter _
    · exact h3 oe hoe2
  · intro oe hoe s1 hs1 s2 hs2 hne
    rw [hsubidxeq, hsubidxeq]
    rcases mem_aset _ _ _ _ hoe with rfl | hoe2
    · simp only at hs1 hs2
      rw [hmemfilter] at hs1 hs2
      exact h4 (oid, obj) hobjmem s1 hs1.1 s2 hs2.1 hne
    · exact h4 oe hoe2 s1 hs1 s2 hs2 hne
  · intro oe hoe x hx
    rcases mem_aset_ne _ _ _ _ h2 hoe with rfl | ⟨hoe2, hoene⟩
    · simp only at hx ⊢
      rw [hmemfilter] at hx
      rw [subOwnedBy_congr _ w.subs _ _ (lk_ne x hx.2)]
      exact h5 (oid, obj) hobjmem x hx.1
    · have hxs : x ≠ sid := fun h => hsidnotin oe hoe2 hoene (h ▸ hx)
      rw [subOwnedBy_congr _ w.subs _ _ (lk_ne x hxs)]
      exact h5 oe hoe2 x hx
  · intro oe hoe x hx
    rcases mem_aset_ne _ _ _ _ h2 hoe with rfl | ⟨hoe2, hoene⟩
    · simp only at hx ⊢
      rw [hmemfilter] at hx
      rw [subPtrInRegion_congr _ w.subs _ _ (lk_ne x hx.2)]
      exact h6 (oid, obj) hobjmem x hx.1
    · have hxs : x ≠ sid := fun h => hsidnotin oe hoe2 hoene (h ▸ hx)
      rw [subPtrInRegion_congr _ w.subs _ _ (lk_ne x hxs)]
      exact h6 oe hoe2 x hx
  · intro oe hoe s1 hs1 s2 hs2 hne
    rcases mem_aset_ne _ _ _ _ h2 hoe with rfl | ⟨hoe2, hoene⟩
    · simp only at hs1 hs2
      rw [hmemfilter] at hs1 hs2
      rw [subPtrOf_congr _ w.subs _ (lk_ne s1 hs1.2),
        subPtrOf_congr _ w.subs _ (lk_ne s2 hs2.2)]
      exact h7 (oid, obj) hobjmem s1 hs1.1 s2 hs2.1 hne
    · have hx1 : s1 ≠ sid := fun h => hsidnotin oe hoe2 hoene (h ▸ hs1)
      have hx2 : s2 ≠ sid := fun h => hsidnotin oe hoe2 hoene (h ▸ hs2)
      rw [subPtrOf_congr _ w.subs _ (lk_ne s1 hx1),
        subPtrOf_congr _ w.subs _ (lk_ne s2 hx2)]
      exact h7 oe hoe2 s1 hs1 s2 hs2 hne
  · intro se hse
    rcases mem_aset_ne _ _ _ _ h1 hse with rfl | ⟨hse2, hsene⟩
    · exact ownerConsistent_none _ _ rfl
    · have h8x := h8 se hse2
      rcases hso : se.2.obj with _ | o
      · exact ownerConsistent_none _ _ hso
      · rw [ownerConsistent_some _ _ _ hso]
        rw [ownerConsistent_some _ _ _ hso] at h8x
        by_cases ho : o = oid
        · subst ho
          rw [objHasSub_eq _ _ _ _ lko_oid]
          rw [objHasSub_eq _ _ _ _ hobj] at h8x
          refine List.elem_eq_true_of_mem ?_
          rw [hmemfilter]
          exact ⟨List.mem_of_elem_eq_true h8x, hsene⟩
        · rw [objHasSub, lko_ne o ho, ← objHasSub]
          exact h8x
  · intro se hse
    rcases mem_aset_ne _ _ _ _ h1 hse with rfl | ⟨hse2, _⟩
    · intro _
      rfl
    · exact h9 se hse2
  · intro se hse
    rcases mem_aset _ _ _ _ hse with rfl | hse2
    · exact h10 (sid, sub) hsubmem
    · exact h10 se hse2
  · intro oe hoe
    rcases mem_aset _ _ _ _ hoe with rfl | hoe2
    · exact h11 (oid, obj) hobjmem
    · exact h11 oe hoe2
  · intro oe1 hoe1 oe2 hoe2 hne
    rcases mem_aset _ _ _ _ hoe1 with rfl | hoe1b <;>
      rcases mem_aset _ _ _ _ hoe2 with rfl | hoe2b
    · exact absurd rfl hne
    · exact h12 (oid, obj) hobjmem oe2 hoe2b hne
    · exact h12 oe1 hoe1b (oid, obj) hobjmem hne
    · exact h12 oe1 hoe1b oe2 hoe2b hne
  · exact h13

theorem subOwnedBy_spec (subs : List (Nat × CoSub)) (x : Nat) (s : CoSub)
    (oid : Nat) (hl : alookup subs x = some s)
    (h : subOwnedBy subs x oid = true) : s.obj = some oid := by
  rw [subOwnedBy, hl] at h
  simpa using h

theorem subPtrInRegion_spec (subs : List (Nat × CoSub)) (x : Nat) (s : CoSub)
    (v : Option Nat) (p : RegPtr) (hl : alookup subs x = some s)
    (hv : s.val = some p) (h : subPtrInRegion subs x v = true) :
    v = some p.1 := by
  rw [subPtrInRegion, hl] at h
  have h2 : (match s.val with
    | some q => decide (v = some q.1)
    | none => true) = true := h
  rw [hv] at h2
  simpa using h2

theorem ptrNe_spec (p1 p2 : RegPtr) (h : ptrNe (some p1) (some p2) = true) :
    p1 ≠ p2 := by
  simpa [ptrNe] using h

theorem regionFresh_spec (r n : Nat) (h : regionFresh (some r) n = true) :
    r < n := by
  simpa [regionFresh] using h

theorem regionsDiffer_spec (r1 r2 : Nat)
    (h : regionsDiffer (some r1) (some r2) = true) : r1 ≠ r2 := by
  simpa [regionsDiffer] using h

theorem co_sub_get_val_none (w : World) (sid : Nat)
    (h : alookup w.subs sid = none) : co_sub_get_val w sid = none := by
  rw [co_sub_get_val, h]

theorem co_sub_get_val_some (w : World) (sid : Nat) (s : CoSub)
    (h : alookup w.subs sid = some s) :
    co_sub_get_val w sid = s.val.map w.mem.read := by
  rw [co_sub_get_val, h]

theorem sizeLoop_pos_of_ne_nil (subs : List (Nat × CoSub)) (tree : List Nat)
    (hne : tree ≠ []) (hdom : ∀ x ∈ tree, alookup subs x ≠ none)
    (hsize : ∀ x ∈ tree, ∀ s : CoSub, alookup subs x = some s →
      0 < co_type_sizeof s.type) : 0 < sizeLoop subs tree 0 := by
  rcases tree with _ | ⟨t, ts⟩
  · exact absurd rfl hne
  · rcases hs : alookup subs t with _ | s
    · exact absurd hs (hdom t (List.mem_cons_self _ _))
    · exact sizeLoop_pos subs t ts s hs
        (hsize t (List.mem_cons_self _ _) s hs)

theorem co_obj_update_none (w : World) (oid : Nat) (allocOk : Bool)
    (h : alookup w.objs oid = none) : co_obj_update w oid allocOk = w := by
  rw [co_obj_update, h]

theorem co_obj_update_some (w : World) (oid : Nat) (obj : CoObj)
    (allocOk : Bool) (hobj : alookup w.objs oid = some obj) :
    co_obj_update w oid allocOk =
      (if sizeLoop w.subs obj.tree 0 ≠ 0 then
        if allocOk then
          { mem := (updateLoop (some w.mem.next) obj.tree 0
              { w.mem with next := w.mem.next + 1 } w.subs).2.1.free obj.val,
            subs := (updateLoop (some w.mem.next) obj.tree 0
              { w.mem with next := w.mem.next + 1 } w.subs).2.2,
            objs := aset w.objs oid
              { obj with
                val := some w.mem.next,
                size := (updateLoop (some w.mem.next) obj.tree 0
                  { w.mem with next := w.mem.next + 1 } w.subs).1 } }
        else w
      else
        { mem := (updateLoop none obj.tree 0 w.mem w.subs).2.1.free obj.val,
          subs := (updateLoop none obj.tree 0 w.mem w.subs).2.2,
          objs := aset w.objs oid
            { obj with
              val := none,
              size := (updateLoop none obj.tree 0 w.mem w.subs).1 } }) := by
  rw [co_obj_update, hobj]

theorem co_obj_update_ok_eq (w : World) (oid : Nat) (obj : CoObj)
    (hobj : alookup w.objs oid = some obj)
    (hsz : sizeLoop w.subs obj.tree 0 ≠ 0) :
    co_obj_update w oid true =
      { mem := (updateLoop (some w.mem.next) obj.tree 0
          { w.mem with next := w.mem.next + 1 } w.subs).2.1.free obj.val,
        subs := (updateLoop (some w.mem.next) obj.tree 0
          { w.mem with next := w.mem.next + 1 } w.subs).2.2,
        objs := aset w.objs oid
          { obj with
            val := some w.mem.next,
            size := (updateLoop (some w.mem.next) obj.tree 0
              { w.mem with next := w.mem.next + 1 } w.subs).1 } } := by
  rw [co_obj_update_some w oid obj true hobj, if_pos hsz, if_pos rfl]

theorem co_obj_update_fail_eq (w : World) (oid : Nat) (obj : CoObj)
    (hobj : alookup w.objs oid = some obj)
    (hsz : sizeLoop w.subs obj.tree 0 ≠ 0) :
    co_obj_update w oid false = w := by
  rw [co_obj_update_some w oid obj false hobj, if_pos hsz,
    if_neg (by simp : ¬(false = true))]

theorem co_obj_update_empty_eq (w : World) (oid : Nat) (obj : CoObj)
    (allocOk : Bool) (hobj : alookup w.objs oid = some obj)
    (htree : obj.tree = []) :
    co_obj_update w oid allocOk =
      { mem := w.mem.free obj.val, subs := w.subs,
        objs := aset w.objs oid { obj with val := none, size := 0 } } := by
  rw [co_obj_update_some w oid obj allocOk hobj, htree]
  rw [if_neg (by simp [sizeLoop])]
  rfl

theorem regionsDiffer_none_left (a : Option Nat) :
    regionsDiffer none a = true := by
  rcases a with _ | r <;> rfl

theorem regionsDiffer_none_right (a : Option Nat) :
    regionsDiffer a none = true := by
  rcases a with _ | r <;> rfl

theorem objHasSub_aset (objs : List (Nat × CoObj)) (oid : Nat)
    (obj obj2 : CoObj) (hobj : alookup objs oid = some obj)
    (htree : obj2.tree = obj.tree) (o x : Nat) :
    objHasSub (aset objs oid obj2) o x = objHasSub objs o x := by
  by_cases ho : o = oid
  · subst ho
    rw [objHasSub_eq _ _ _ x
        (alookup_aset_eq _ _ _ (by rw [hobj]; exact fun h => Option.noConfusion h)),
      objHasSub_eq _ _ _ x hobj, htree]
  · rw [objHasSub, objHasSub, alookup_aset_ne _ _ _ _ fun h => ho h.symm]

theorem tree_sub_lookup (w : World) (oid : Nat) (obj : CoObj)
    (hWF : WF w) (hobj : alookup w.objs oid = some obj) :
    ∀ x ∈ obj.tree, ∃ s : CoSub, alookup w.subs x = some s ∧
      s.obj = some oid := by
  obtain ⟨h1, h2, h3, h4, h5, h6, h7, h8, h9, h10, h11, h12, h13⟩ := id hWF
  intro x hx
  have h := h5 (oid, obj) (mem_of_alookup _ _ _ hobj) x hx
  rcases hs : alookup w.subs x with _ | s
  · rw [subOwnedBy, hs] at h
    exact Bool.noConfusion h
  · exact ⟨s, rfl, subOwnedBy_spec _ _ _ _ hs h⟩

/--
The value pointer of a tree member lies in the object's region.
-/
theorem treeSub_val_region (w : World) (oid : Nat) (obj : CoObj)
    (hWF : WF w) (hobj : alookup w.objs oid = some obj)
    (x : Nat) (hx : x ∈ obj.tree) (s : CoSub) (hs : alookup w.subs x = some s)
    (q : RegPtr) (hq : s.val = some q) : obj.val = some q.1 := by
  obtain ⟨h1, h2, h3, h4, h5, h6, h7, h8, h9, h10, h11, h12, h13⟩ := id hWF
  exact subPtrInRegion_spec _ _ _ _ _ hs hq
    (h6 (oid, obj) (mem_of_alookup _ _ _ hobj) x hx)

/--
The value pointer of a sub-object outside the tree of the object oid lies in
an allocated region distinct from the object's region.
-/
theorem subPtr_outside_tree (w : World) (oid : Nat) (obj : CoObj)
    (hWF : WF w) (hobj : alookup w.objs oid = some obj)
    (x : Nat) (hx : x ∉ obj.tree) (s : CoSub) (hs : alookup w.subs x = some s)
    (p : RegPtr) (hp : s.val = some p) :
    p.1 < w.mem.next ∧ ∀ r1, obj.val = some r1 → p.1 ≠ r1 := by
  obtain ⟨h1, h2, h3, h4, h5, h6, h7, h8, h9, h10, h11, h12, h13⟩ := id hWF
  have hsubmem : (x, s) ∈ w.subs := mem_of_alookup _ _ _ hs
  rcases hso : s.obj with _ | oid2
  · have hv := h9 (x, s) hsubmem hso
    rw [hv] at hp
    exact Option.noConfusion hp
  · have hoc := h8 (x, s) hsubmem
    rw [ownerConsistent_some _ _ oid2 hso] at hoc
    rcases ho2 : alookup w.objs oid2 with _ | obj2
    · rw [objHasSub, ho2] at hoc
      exact Bool.noConfusion hoc
    have hxin2 : x ∈ obj2.tree := by
      rw [objHasSub_eq _ _ _ _ ho2] at hoc
      exact List.mem_of_elem_eq_true hoc
    have hne : oid2 ≠ oid := by
      intro he
      subst he
      rw [hobj] at ho2
      rw [← Option.some.inj ho2] at hxin2
      exact hx hxin2
    have hobj2mem : (oid2, obj2) ∈ w.objs := mem_of_alookup _ _ _ ho2
    have hreg : obj2.val = some p.1 :=
      subPtrInRegion_spec _ _ _ _ _ hs hp (h6 (oid2, obj2) hobj2mem x hxin2)
    have h11x := h11 (oid2, obj2) hobj2mem
    rw [hreg] at h11x
    refine ⟨regionFresh_spec _ _ h11x, ?_⟩
    intro r1 hr1 he
    have h12x := h12 (oid, obj) (mem_of_alookup _ _ _ hobj) (oid2, obj2)
      hobj2mem fun h => hne h.symm
    rw [hr1, hreg] at h12x
    exact regionsDiffer_spec _ _ h12x he.symm

theorem co_sub_get_val_congr (w1 w2 : World) (x : Nat)
    (hl : alookup w1.subs x = alookup w2.subs x)
    (hr : ∀ s : CoSub, alookup w2.subs x = some s →
      ∀ p : RegPtr, s.val = some p → w1.mem.read p = w2.mem.read p) :
    co_sub_get_val w1 x = co_sub_get_val w2 x := by
  rw [co_sub_get_val, co_sub_get_val, hl]
  rcases hs : alookup w2.subs x with _ | s
  · rfl
  · show Option.map w1.mem.read s.val = Option.map w2.mem.read s.val
    rcases hv : s.val with _ | p
    · rfl
    · show some (w1.mem.read p) = some (w2.mem.read p)
      rw [hr s hs p hv]

/--
Full specification of co_obj_update with a successful allocation on a
well-formed world: well-formedness is preserved; the sub-object key set is
unchanged; sub-objects outside the object's tree keep their entry and the
value they read; every sub-object of the tree reads back afterwards exactly
the value its old slot held, and zero when it had no slot; other objects
are untouched; the object keeps its tree.
-/
theorem co_obj_update_true_spec (w : World) (oid : Nat) (obj : CoObj)
    (hWF : WF w) (hobj : alookup w.objs oid = some obj) :
    WF (co_obj_update w oid true) ∧
    ((co_obj_update w oid true).subs.map Prod.fst = w.subs.map Prod.fst) ∧
    (∀ x, x ∉ obj.tree →
      alookup (co_obj_update w oid true).subs x = alookup w.subs x) ∧
    (∀ x, x ∉ obj.tree →
      co_sub_get_val (co_obj_update w oid true) x = co_sub_get_val w x) ∧
    (∀ x ∈ obj.tree, ∀ s : CoSub, alookup w.subs x = some s →
      co_sub_get_val (co_obj_update w oid true) x =
        some (match s.val with
          | some p => w.mem.read p
          | none => 0)) ∧
    (∀ o, o ≠ oid →
      alookup (co_obj_update w oid true).objs o = alookup w.objs o) ∧
    (∃ obj2 : CoObj, alookup (co_obj_update w oid true).objs oid = some obj2 ∧
      obj2.tree = obj.tree) ∧
    (∀ x ∈ obj.tree, ∀ s : CoSub, alookup w.subs x = some s →
      ∃ s2 : CoSub, alookup (co_obj_update w oid true).subs x = some s2 ∧
        s2.obj = s.obj ∧ s2.subidx = s.subidx) := by
  obtain ⟨h1, h2, h3, h4, h5, h6, h7, h8, h9, h10, h11, h12, h13⟩ := id hWF
  have hobjmem : (oid, obj) ∈ w.objs := mem_of_alookup _ _ _ hobj
  have hlkobj1 : alookup w.objs oid ≠ none := by
    rw [hobj]
    exact fun h => Option.noConfusion h
  by_cases htree : obj.tree = []
  · rw [co_obj_update_empty_eq w oid obj true hobj htree]
    refine ⟨?_, rfl, fun x _ => rfl, ?_, ?_, ?_, ?_, ?_⟩
    · refine ⟨h1, ?_, ?_, ?_, ?_, ?_, ?_, ?_, h9, h10, ?_, ?_, ?_⟩
      · show ((aset w.objs oid { obj with val := none, size := 0 }).map
            Prod.fst).Nodup
        rw [aset_keys]
        exact h2
      · intro oe hoe
        rcases mem_aset_ne _ _ _ _ h2 hoe with heq | ⟨hm, _⟩
        · rw [heq]
          exact h3 (oid, obj) hobjmem
        · exact h3 oe hm
      · intro oe hoe x1 hx1 x2 hx2 hne
        rcases mem_aset_ne _ _ _ _ h2 hoe with heq | ⟨hm, _⟩
        · rw [heq] at hx1 hx2
          exact h4 (oid, obj) hobjmem x1 hx1 x2 hx2 hne
        · exact h4 oe hm x1 hx1 x2 hx2 hne
      · intro oe hoe x hx
        rcases mem_aset_ne _ _ _ _ h2 hoe with heq | ⟨hm, _⟩
        · rw [heq] at hx ⊢
          exact h5 (oid, obj) hobjmem x hx
        · exact h5 oe hm x hx
      · intro oe hoe x hx
        rcases mem_aset_ne _ _ _ _ h2 hoe with heq | ⟨hm, _⟩
        · rw [heq] at hx
          have hx2 : x ∈ obj.tree := hx
          rw [htree] at hx2
          exact absurd hx2 (List.not_mem_nil _)
        · exact h6 oe hm x hx
      · intro oe hoe x1 hx1 x2 hx2 hne
        rcases mem_aset_ne _ _ _ _ h2 hoe with heq | ⟨hm, _⟩
        · rw [heq] at hx1
          have hx1b : x1 ∈ obj.tree := hx1
          rw [htree] at hx1b
          exact absurd hx1b (List.not_mem_nil _)
        · exact h7 oe hm x1 hx1 x2 hx2 hne
      · intro se hse
        have hoc : ownerConsistent (aset w.objs oid
            { obj with val := none, size := 0 }) se =
            ownerConsistent w.objs se := by
          rcases hso : se.2.obj with _ | o2
          · rw [ownerConsistent_none _ _ hso, ownerConsistent_none _ _ hso]
          · rw [ownerConsistent_some _ _ o2 hso,
              ownerConsistent_some _ _ o2 hso,
              objHasSub_aset w.objs oid obj
                { obj with val := none, size := 0 } hobj rfl]
        show ownerConsistent (aset w.objs oid
          { obj with val := none, size := 0 }) se = true
        rw [hoc]
        exact h8 se hse
      · intro oe hoe
        show regionFresh oe.2.val (w.mem.free obj.val).next = true
        rw [mem_free_next]
        rcases mem_aset_ne _ _ _ _ h2 hoe with heq | ⟨hm, _⟩
        · rw [heq]
          rfl
        · exact h11 oe hm
      · intro oe1 hoe1 oe2 hoe2 hne
        rcases mem_aset_ne _ _ _ _ h2 hoe1 with heq1 | ⟨hm1, _⟩ <;>
          rcases mem_aset_ne _ _ _ _ h2 hoe2 with heq2 | ⟨hm2, _⟩
        · rw [heq1, heq2] at hne
          exact absurd rfl hne
        · rw [heq1]
          exact regionsDiffer_none_left _
        · rw [heq2]
          exact regionsDiffer_none_right _
        · exact h12 oe1 hm1 oe2 hm2 hne
      · intro sl hsl
        show sl.1.1 < (w.mem.free obj.val).next
        rw [mem_free_next]
        exact h13 sl (mem_free_store _ _ _ hsl)
    · intro x hx
      refine co_sub_get_val_congr _ w x rfl ?_
      intro s hs p hp
      exact mem_read_free _ _ _
        (subPtr_outside_tree w oid obj hWF hobj x hx s hs p hp).2
    · intro x hx s hs
      rw [htree] at hx
      exact absurd hx (List.not_mem_nil _)
    · intro o ho
      exact alookup_aset_ne _ _ _ _ fun h => ho h.symm
    · exact ⟨{ obj with val := none, size := 0 },
        alookup_aset_eq _ _ _ hlkobj1, rfl⟩
    · intro x hx s hs
      rw [htree] at hx
      exact absurd hx (List.not_mem_nil _)
  · have hTlook := tree_sub_lookup w oid obj hWF hobj
    have hdom : ∀ x ∈ obj.tree, alookup w.subs x ≠ none := by
      intro x hx
      rcases hTlook x hx with ⟨s, hs, _⟩
      rw [hs]
      exact fun h => Option.noConfusion h
    have hsizepos : ∀ x ∈ obj.tree, ∀ s : CoSub, alookup w.subs x = some s →
        0 < co_type_sizeof s.type :=
      fun x _ s hs => h10 (x, s) (mem_of_alookup _ _ _ hs)
    have hsz : sizeLoop w.subs obj.tree 0 ≠ 0 :=
      Nat.pos_iff_ne_zero.mp
        (sizeLoop_pos_of_ne_nil w.subs obj.tree htree hdom hsizepos)
    have hsrcreg : ∀ x ∈ obj.tree, ∀ s : CoSub, alookup w.subs x = some s →
        ∀ p : RegPtr, s.val = some p → p.1 < w.mem.next := by
      intro x hx s hs p hp
      have hreg := treeSub_val_region w oid obj hWF hobj x hx s hs p hp
      have h11x := h11 (oid, obj) hobjmem
      rw [hreg] at h11x
      exact regionFresh_spec _ _ h11x
    have hdist : ∀ x1 ∈ obj.tree, ∀ x2 ∈ obj.tree, x1 ≠ x2 →
        ∀ s1 s2 : CoSub, alookup w.subs x1 = some s1 →
          alookup w.subs x2 = some s2 →
        ∀ p1 p2 : RegPtr, s1.val = some p1 → s2.val = some p2 → p1 ≠ p2 := by
      intro x1 hx1 x2 hx2 hne s1 s2 hs1 hs2 p1 p2 hp1 hp2
      have h7x := h7 (oid, obj) hobjmem x1 hx1 x2 hx2 hne
      rw [subPtrOf_eq _ _ _ hs1, subPtrOf_eq _ _ _ hs2, hp1, hp2] at h7x
      exact ptrNe_spec _ _ h7x
    have hfresh : ∀ r1, obj.val = some r1 → r1 < w.mem.next := by
      intro r1 hr1
      have h11x := h11 (oid, obj) hobjmem
      rw [hr1] at h11x
      exact regionFresh_spec _ _ h11x
    have hstore0 : ∀ sl ∈ ({ w.mem with next := w.mem.next + 1 } : Mem).store,
        sl.1.1 = w.mem.next → sl.1.2 < 0 := by
      intro sl hsl he
      exact absurd he (Nat.ne_of_lt (h13 sl hsl))
    have hstorele : ∀ sl ∈
        ({ w.mem with next := w.mem.next + 1 } : Mem).store,
        sl.1.1 ≤ w.mem.next :=
      fun sl hsl => Nat.le_of_lt (h13 sl hsl)
    obtain ⟨hkeys, hout, hin, hread, hother, hbelow, hnext, hle⟩ :=
      updateLoop_spec w.mem.next obj.tree 0
        { w.mem with next := w.mem.next + 1 } w.subs
        (h3 (oid, obj) hobjmem) hdom hsizepos hsrcreg hdist hstore0 hstorele
    rw [co_obj_update_ok_eq w oid obj hobj hsz]
    set mem1 := (updateLoop (some w.mem.next) obj.tree 0
      { w.mem with next := w.mem.next + 1 } w.subs).2.1 with hmem1
    set subs1 := (updateLoop (some w.mem.next) obj.tree 0
      { w.mem with next := w.mem.next + 1 } w.subs).2.2 with hsubs1
    set obj1 := { obj with
      val := some w.mem.next,
      size := (updateLoop (some w.mem.next) obj.tree 0
        { w.mem with next := w.mem.next + 1 } w.subs).1 } with hobj1def
    have hndL : (subs1.map Prod.fst).Nodup := by
      rw [hkeys]
      exact h1
    have hlkch : ∀ x, alookup subs1 x = alookup w.subs x ∨
        (x ∈ obj.tree ∧ ∃ s0 : CoSub, alookup w.subs x = some s0 ∧
          alookup subs1 x = some { s0 with
            val := some (w.mem.next, offsetOf w.subs obj.tree 0 x) }) := by
      intro x
      by_cases hx : x ∈ obj.tree
      · rcases hTlook x hx with ⟨s0, hs0, _⟩
        exact Or.inr ⟨hx, s0, hs0, hin x hx s0 hs0⟩
      · exact Or.inl (hout x hx)
    have hsubidx : ∀ x, subidxOf subs1 x = subidxOf w.subs x := by
      intro x
      rcases hlkch x with h | ⟨_, s0, hs0, hsx⟩
      · exact subidxOf_congr _ _ x h
      · rw [subidxOf_eq _ _ _ hsx, subidxOf_eq _ _ _ hs0]
    have hOwned : ∀ x o, subOwnedBy subs1 x o = subOwnedBy w.subs x o := by
      intro x o
      rcases hlkch x with h | ⟨_, s0, hs0, hsx⟩
      · exact subOwnedBy_congr _ _ x o h
      · rw [subOwnedBy, subOwnedBy, hsx, hs0]
    have hmemchar : ∀ se, se ∈ subs1 →
        se ∈ w.subs ∨ ∃ s0 : CoSub, (se.1, s0) ∈ w.subs ∧
          se.2 = { s0 with
            val := some (w.mem.next, offsetOf w.subs obj.tree 0 se.1) } ∧
          s0.obj = some oid := by
      intro se hse
      have hl : alookup subs1 se.1 = some se.2 :=
        alookup_of_mem_nodup _ _ _ hndL hse
      by_cases hx : se.1 ∈ obj.tree
      · rcases hTlook se.1 hx with ⟨s0, hs0, hso⟩
        have h2x := hin se.1 hx s0 hs0
        rw [hl] at h2x
        exact Or.inr ⟨s0, mem_of_alookup _ _ _ hs0, Option.some.inj h2x, hso⟩
      · rw [hout se.1 hx] at hl
        exact Or.inl (mem_of_alookup _ _ _ hl)
    have hdisj : ∀ oe ∈ w.objs, oe.1 ≠ oid → ∀ x ∈ oe.2.tree,
        x ∉ obj.tree := by
      intro oe hoe hne x hx1 hx2
      have ha := h5 oe hoe x hx1
      rcases hTlook x hx2 with ⟨s, hs, hso⟩
      have hb := subOwnedBy_spec _ _ _ _ hs ha
      rw [hso] at hb
      exact hne (Option.some.inj hb).symm
    refine ⟨?_, hkeys, hout, ?_, ?_, ?_, ?_, ?_⟩
    · refine ⟨hndL, ?_, ?_, ?_, ?_, ?_, ?_, ?_, ?_, ?_, ?_, ?_, ?_⟩
      · show ((aset w.objs oid obj1).map Prod.fst).Nodup
        rw [aset_keys]
        exact h2
      · intro oe hoe
        rcases mem_aset_ne _ _ _ _ h2 hoe with heq | ⟨hm, _⟩
        · rw [heq]
          exact h3 (oid, obj) hobjmem
        · exact h3 oe hm
      · intro oe hoe x1 hx1 x2 hx2 hne
        show subidxOf subs1 x1 ≠ subidxOf subs1 x2
        rw [hsubidx x1, hsubidx x2]
        rcases mem_aset_ne _ _ _ _ h2 hoe with heq | ⟨hm, _⟩
        · rw [heq] at hx1 hx2
          exact h4 (oid, obj) hobjmem x1 hx1 x2 hx2 hne
        · exact h4 oe hm x1 hx1 x2 hx2 hne
      · intro oe hoe x hx
        show subOwnedBy subs1 x oe.1 = true
        rw [hOwned x oe.1]
        rcases mem_aset_ne _ _ _ _ h2 hoe with heq | ⟨hm, _⟩
        · rw [heq] at hx ⊢
          exact h5 (oid, obj) hobjmem x hx
        · exact h5 oe hm x hx
      · intro oe hoe x hx
        rcases mem_aset_ne _ _ _ _ h2 hoe with heq | ⟨hm, hneo⟩
        · rw [heq] at hx ⊢
          have hx2 : x ∈ obj.tree := hx
          rcases hTlook x hx2 with ⟨s0, hs0, _⟩
          show subPtrInRegion subs1 x (some w.mem.next) = true
          rw [subPtrInRegion, hin x hx2 s0 hs0]
          simp
        · show subPtrInRegion subs1 x oe.2.val = true
          rw [subPtrInRegion_congr subs1 w.subs x oe.2.val
            (hout x (hdisj oe hm hneo x hx))]
          exact h6 oe hm x hx
      · intro oe hoe x1 hx1 x2 hx2 hne
        rcases mem_aset_ne _ _ _ _ h2 hoe with heq | ⟨hm, hneo⟩
        · rw [heq] at hx1 hx2
          have hx1b : x1 ∈ obj.tree := hx1
          have hx2b : x2 ∈ obj.tree := hx2
          rcases hTlook x1 hx1b with ⟨s1, hs1, _⟩
          rcases hTlook x2 hx2b with ⟨s2, hs2, _⟩
          show ptrNe (subPtrOf subs1 x1) (subPtrOf subs1 x2) = true
          rw [subPtrOf_eq _ _ _ (hin x1 hx1b s1 hs1),
            subPtrOf_eq _ _ _ (hin x2 hx2b s2 hs2)]
          have hoffne := offsetOf_distinct w.subs obj.tree 0 x1 x2
            (h3 (oid, obj) hobjmem) hdom hsizepos hx1b hx2b hne
          show decide ((w.mem.next, offsetOf w.subs obj.tree 0 x1) ≠
            (w.mem.next, offsetOf w.subs obj.tree 0 x2)) = true
          exact decide_eq_true fun hpe => hoffne (congrArg Prod.snd hpe)
        · show ptrNe (subPtrOf subs1 x1) (subPtrOf subs1 x2) = true
          rw [subPtrOf_congr subs1 w.subs x1
              (hout x1 (hdisj oe hm hneo x1 hx1)),
            subPtrOf_congr subs1 w.subs x2
              (hout x2 (hdisj oe hm hneo x2 hx2))]
          exact h7 oe hm x1 hx1 x2 hx2 hne
      · intro se hse
        have hoc : ownerConsistent (aset w.objs oid obj1) se =
            ownerConsistent w.objs se := by
          rcases hso : se.2.obj with _ | o2
          · rw [ownerConsistent_none _ _ hso, ownerConsistent_none _ _ hso]
          · rw [ownerConsistent_some _ _ o2 hso,
              ownerConsistent_some _ _ o2 hso,
              objHasSub_aset w.objs oid obj obj1 hobj rfl]
        show ownerConsistent (aset w.objs oid obj1) se = true
        rw [hoc]
        rcases hmemchar se hse with hold | ⟨s0, hs0mem, hseq, hso⟩
        · exact h8 se hold
        · rcases hso2 : se.2.obj with _ | o2
          · exact ownerConsistent_none _ _ hso2
          · rw [ownerConsistent_some _ _ o2 hso2]
            have hobjeq : se.2.obj = s0.obj := by rw [hseq]
            rw [hso2, hso] at hobjeq
            rw [Option.some.inj hobjeq]
            have h8x := h8 (se.1, s0) hs0mem
            rw [ownerConsistent_some _ _ oid hso] at h8x
            exact h8x
      · intro se hse hnone
        rcases hmemchar se hse with hold | ⟨s0, hs0mem, hseq, hso⟩
        · exact h9 se hold hnone
        · exfalso
          have hobjeq : se.2.obj = s0.obj := by rw [hseq]
          rw [hnone, hso] at hobjeq
          exact Option.noConfusion hobjeq
      · intro se hse
        rcases hmemchar se hse with hold | ⟨s0, hs0mem, hseq, _⟩
        · exact h10 se hold
        · have hte : se.2.type = s0.type := by rw [hseq]
          rw [hte]
          exact h10 (se.1, s0) hs0mem
      · intro oe hoe
        have hn : (mem1.free obj.val).next = w.mem.next + 1 := by
          rw [mem_free_next, hmem1, hnext]
        show regionFresh oe.2.val (mem1.free obj.val).next = true
        rw [hn]
        rcases mem_aset_ne _ _ _ _ h2 hoe with heq | ⟨hm, _⟩
        · rw [heq]
          show regionFresh (some w.mem.next) (w.mem.next + 1) = true
          exact decide_eq_true (Nat.lt_succ_self _)
        · have h11x := h11 oe hm
          rcases hv : oe.2.val with _ | r
          · rfl
          · rw [hv] at h11x
            exact decide_eq_true
              (Nat.lt_succ_of_lt (regionFresh_spec _ _ h11x))
      · intro oe1 hoe1 oe2 hoe2 hne
        rcases mem_aset_ne _ _ _ _ h2 hoe1 with heq1 | ⟨hm1, hne1⟩ <;>
          rcases mem_aset_ne _ _ _ _ h2 hoe2 with heq2 | ⟨hm2, hne2⟩
        · rw [heq1, heq2] at hne
          exact absurd rfl hne
        · rw [heq1]
          show regionsDiffer (some w.mem.next) oe2.2.val = true
          have h11x := h11 oe2 hm2
          rcases hv : oe2.2.val with _ | r
          · exact regionsDiffer_none_right _
          · rw [hv] at h11x
            refine decide_eq_true fun he => ?_
            have hlt := regionFresh_spec _ _ h11x
            omega
        · rw [heq2]
          show regionsDiffer oe1.2.val (some w.mem.next) = true
          have h11x := h11 oe1 hm1
          rcases hv : oe1.2.val with _ | r
          · exact regionsDiffer_none_left _
          · rw [hv] at h11x
            refine decide_eq_true fun he => ?_
            have hlt := regionFresh_spec _ _ h11x
            omega
        · exact h12 oe1 hm1 oe2 hm2 hne
      · intro sl hsl
        show sl.1.1 < (mem1.free obj.val).next
        have hn : (mem1.free obj.val).next = w.mem.next + 1 := by
          rw [mem_free_next, hmem1, hnext]
        rw [hn]
        have hsl2 : sl ∈ mem1.store := mem_free_store _ _ _ hsl
        have hsl3 := hle sl hsl2
        omega
    · intro x hx
      refine co_sub_get_val_congr _ w x (hout x hx) ?_
      intro s hs p hp
      have hop := subPtr_outside_tree w oid obj hWF hobj x hx s hs p hp
      have hnosrc : ∀ y ∈ obj.tree, ∀ s0 : CoSub, alookup w.subs y = some s0 →
          s0.val ≠ some p := by
        intro y hy s0 hs0 he
        exact hop.2 p.1
          (treeSub_val_region w oid obj hWF hobj y hy s0 hs0 p he) rfl
      show (mem1.free obj.val).read p = w.mem.read p
      rw [mem_read_free _ _ _ hop.2, hother p (Nat.ne_of_lt hop.1) hnosrc]
      rfl
    · intro x hx s hs
      have heq : co_sub_get_val
          { mem := mem1.free obj.val,
            subs := subs1,
            objs := aset w.objs oid obj1 } x =
          some ((mem1.free obj.val).read
            (w.mem.next, offsetOf w.subs obj.tree 0 x)) :=
        co_sub_get_val_some _ x
          { s with val := some (w.mem.next, offsetOf w.subs obj.tree 0 x) }
          (hin x hx s hs)
      refine heq.trans ?_
      rw [mem_read_free _ _ _ fun r1 hr1 => Nat.ne_of_gt (hfresh r1 hr1),
        hread x hx s hs]
      rcases hv : s.val with _ | p <;> rfl
    · intro o ho
      exact alookup_aset_ne _ _ _ _ fun h => ho h.symm
    · exact ⟨obj1, alookup_aset_eq _ _ _ hlkobj1, rfl⟩
    · intro x hx s hs
      exact ⟨{ s with val := some (w.mem.next, offsetOf w.subs obj.tree 0 x) },
        hin x hx s hs, rfl, rfl⟩

theorem co_obj_insert_sub_eq_def (w : World) (oid sid : Nat) (obj : CoObj)
    (sub : CoSub) (allocOk : Bool) (hobj : alookup w.objs oid = some obj)
    (hsub : alookup w.subs sid = some sub) :
    co_obj_insert_sub w oid sid allocOk =
      (if sub.obj ≠ none ∧ sub.obj ≠ some oid then (w, -1)
      else if sub.obj = some oid then (w, 0)
      else if treeFind w.subs obj.tree sub.subidx then (w, -1)
      else
        (co_obj_update
          { w with
            subs := aset w.subs sid { sub with obj := some oid },
            objs := aset w.objs oid
              { obj with
                tree := treeInsert w.subs obj.tree sub.subidx sid } }
          oid allocOk, 0)) := by
  rw [co_obj_insert_sub, hobj, hsub]

theorem co_obj_insert_sub_noobj (w : World) (oid sid : Nat) (allocOk : Bool)
    (hobj : alookup w.objs oid = none) :
    co_obj_insert_sub w oid sid allocOk = (w, -1) := by
  rw [co_obj_insert_sub, hobj]

theorem co_obj_insert_sub_nosub (w : World) (oid sid : Nat) (obj : CoObj)
    (allocOk : Bool) (hobj : alookup w.objs oid = some obj)
    (hsub : alookup w.subs sid = none) :
    co_obj_insert_sub w oid sid allocOk = (w, -1) := by
  rw [co_obj_insert_sub, hobj, hsub]

theorem co_obj_remove_sub_eq_def (w : World) (oid sid : Nat) (obj : CoObj)
    (sub : CoSub) (allocOk : Bool) (hobj : alookup w.objs oid = some obj)
    (hsub : alookup w.subs sid = some sub) :
    co_obj_remove_sub w oid sid allocOk =
      (if sub.obj ≠ some oid then (w, -1)
      else
        (co_obj_update
          { w with
            subs := aset w.subs sid { sub with obj := none, val := none },
            objs := aset w.objs oid
              { obj with
                tree := obj.tree.filter (fun t => decide (t ≠ sid)) } }
          oid allocOk, 0)) := by
  rw [co_obj_remove_sub, hobj, hsub]

theorem co_obj_remove_sub_noobj (w : World) (oid sid : Nat) (allocOk : Bool)
    (hobj : alookup w.objs oid = none) :
    co_obj_remove_sub w oid sid allocOk = (w, -1) := by
  rw [co_obj_remove_sub, hobj]

theorem co_obj_remove_sub_nosub (w : World) (oid sid : Nat) (obj : CoObj)
    (allocOk : Bool) (hobj : alookup w.objs oid = some obj)
    (hsub : alookup w.subs sid = none) :
    co_obj_remove_sub w oid sid allocOk = (w, -1) := by
  rw [co_obj_remove_sub, hobj, hsub]

/--
A successful insertion (detached sub-object, free sub-index, allocation
succeeds) returns 0, preserves well-formedness, attaches the sub-object
with a zero-filled value slot, and preserves the readable value of every
other sub-object.
-/
theorem co_obj_insert_sub_success (w : World) (oid sid : Nat) (obj : CoObj)
    (sub : CoSub) (hWF : WF w) (hobj : alookup w.objs oid = some obj)
    (hsub : alookup w.subs sid = some sub) (hdet : sub.obj = none)
    (hfind : treeFind w.subs obj.tree sub.subidx = false) :
    (co_obj_insert_sub w oid sid true).2 = 0 ∧
    WF (co_obj_insert_sub w oid sid true).1 ∧
    co_sub_get_val (co_obj_insert_sub w oid sid true).1 sid = some 0 ∧
    subAttached (co_obj_insert_sub w oid sid true).1 sid = true ∧
    (∀ x, x ≠ sid → ∀ v, co_sub_get_val w x = some v →
      co_sub_get_val (co_obj_insert_sub w oid sid true).1 x = some v) := by
  obtain ⟨h1, h2, h3, h4, h5, h6, h7, h8, h9, h10, h11, h12, h13⟩ := id hWF
  have hvalnone : sub.val = none :=
    h9 (sid, sub) (mem_of_alookup _ _ _ hsub) hdet
  have hWF1 := WF_insert_pre w oid sid obj sub hWF hobj hsub hdet hfind
  have hlkobj1 : alookup w.objs oid ≠ none := by
    rw [hobj]
    exact fun h => Option.noConfusion h
  rw [co_obj_insert_sub_eq_def w oid sid obj sub true hobj hsub,
    if_neg (fun h => h.1 hdet),
    if_neg (fun h => Option.noConfusion (hdet.symm.trans h)),
    if_neg (fun h => Bool.noConfusion (hfind.symm.trans h))]
  set w1 : World := { w with
    subs := aset w.subs sid { sub with obj := some oid },
    objs := aset w.objs oid
      { obj with
        tree := treeInsert w.subs obj.tree sub.subidx sid } } with hw1
  have hobj1 : alookup w1.objs oid =
      some { obj with tree := treeInsert w.subs obj.tree sub.subidx sid } :=
    alookup_aset_eq _ _ _ hlkobj1
  obtain ⟨hWF', hkeys', hout', hvalout', hvalin', hobjs', hoid', hlkin'⟩ :=
    co_obj_update_true_spec w1 oid
      { obj with tree := treeInsert w.subs obj.tree sub.subidx sid } hWF1 hobj1
  have hsidtree : sid ∈ treeInsert w.subs obj.tree sub.subidx sid :=
    (mem_treeInsert _ _ _ _ _).mpr (Or.inl rfl)
  have hlk1 : alookup w1.subs sid = some { sub with obj := some oid } :=
    alookup_aset_eq _ _ _ (by
      rw [hsub]
      exact fun h => Option.noConfusion h)
  refine ⟨rfl, hWF', ?_, ?_, ?_⟩
  · have hv5 := hvalin' sid hsidtree { sub with obj := some oid } hlk1
    rw [show ({ sub with obj := some oid } : CoSub).val = none
      from hvalnone] at hv5
    exact hv5
  · obtain ⟨s2, hs2, hs2obj, _⟩ :=
      hlkin' sid hsidtree { sub with obj := some oid } hlk1
    have hs2obj2 : s2.obj = some oid := hs2obj
    have hatt : subAttached (co_obj_update w1 oid true) sid = true := by
      rw [subAttached, hs2]
      simp [hs2obj2]
    exact hatt
  · intro x hx v hv
    by_cases hxt : x ∈ obj.tree
    · have hxt1 : x ∈ treeInsert w.subs obj.tree sub.subidx sid :=
        (mem_treeInsert _ _ _ _ _).mpr (Or.inr hxt)
      rcases hs0 : alookup w.subs x with _ | s0
      · rw [co_sub_get_val_none _ _ hs0] at hv
        exact Option.noConfusion hv
      · have hlkx : alookup w1.subs x = some s0 :=
          (alookup_aset_ne w.subs sid x { sub with obj := some oid }
            fun h => hx h.symm).trans hs0
        have h5x := hvalin' x hxt1 s0 hlkx
        rw [co_sub_get_val_some _ _ _ hs0] at hv
        rcases hsv : s0.val with _ | p
        · rw [hsv] at hv
          exact Option.noConfusion (show (none : Option Int) = some v from hv)
        · rw [hsv] at hv h5x
          have hv2 : w.mem.read p = v :=
            Option.some.inj (show some (w.mem.read p) = some v from hv)
          have hgoal : co_sub_get_val (co_obj_update w1 oid true) x =
              some v := by
            rw [h5x]
            show some (w1.mem.read p) = some v
            rw [show w1.mem.read p = w.mem.read p from rfl, hv2]
          exact hgoal
    · have hxt1 : x ∉ treeInsert w.subs obj.tree sub.subidx sid := by
        rw [mem_treeInsert]
        rintro (h | h)
        · exact hx h
        · exact hxt h
      have hval : co_sub_get_val (co_obj_update w1 oid true) x =
          co_sub_get_val w x := by
        rw [hvalout' x hxt1]
        exact co_sub_get_val_congr w1 w x
          (alookup_aset_ne w.subs sid x { sub with obj := some oid }
            fun h => hx h.symm)
          fun s hs p hp => rfl
      exact hval.trans hv

/--
A successful removal (sub-object attached to this object, allocation
succeeds) returns 0, preserves well-formedness, detaches the sub-object and
drops its stored value, and preserves the readable value of every other
sub-object.
-/
theorem co_obj_remove_sub_success (w : World) (oid sid : Nat) (obj : CoObj)
    (sub : CoSub) (hWF : WF w) (hobj : alookup w.objs oid = some obj)
    (hsub : alookup w.subs sid = some sub) (howner : sub.obj = some oid) :
    (co_obj_remove_sub w oid sid true).2 = 0 ∧
    WF (co_obj_remove_sub w oid sid true).1 ∧
    subAttached (co_obj_remove_sub w oid sid true).1 sid = false ∧
    co_sub_get_val (co_obj_remove_sub w oid sid true).1 sid = none ∧
    (∀ x, x ≠ sid → ∀ v, co_sub_get_val w x = some v →
      co_sub_get_val (co_obj_remove_sub w oid sid true).1 x = some v) := by
  have hWF1 := WF_remove_pre w oid sid obj sub hWF hobj hsub howner
  have hlkobj1 : alookup w.objs oid ≠ none := by
    rw [hobj]
    exact fun h => Option.noConfusion h
  rw [co_obj_remove_sub_eq_def w oid sid obj sub true hobj hsub,
    if_neg (fun h => h howner)]
  set w1 : World := { w with
    subs := aset w.subs sid { sub with obj := none, val := none },
    objs := aset w.objs oid
      { obj with
        tree := obj.tree.filter (fun t => decide (t ≠ sid)) } } with hw1
  have hobj1 : alookup w1.objs oid =
      some { obj with tree := obj.tree.filter (fun t => decide (t ≠ sid)) } :=
    alookup_aset_eq _ _ _ hlkobj1
  obtain ⟨hWF', hkeys', hout', hvalout', hvalin', hobjs', hoid', hlkin'⟩ :=
    co_obj_update_true_spec w1 oid
      { obj with tree := obj.tree.filter (fun t => decide (t ≠ sid)) }
      hWF1 hobj1
  have hsidnot : sid ∉ obj.tree.filter (fun t => decide (t ≠ sid)) := by
    intro h
    have h2 := (List.mem_filter.mp h).2
    simp at h2
  have hlksid : alookup w1.subs sid =
      some { sub with obj := none, val := none } :=
    alookup_aset_eq _ _ _ (by
      rw [hsub]
      exact fun h => Option.noConfusion h)
  refine ⟨rfl, hWF', ?_, ?_, ?_⟩
  · have hlk' : alookup (co_obj_update w1 oid true).subs sid =
        some { sub with obj := none, val := none } := by
      rw [hout' sid hsidnot]
      exact hlksid
    have hatt : subAttached (co_obj_update w1 oid true) sid = false := by
      rw [subAttached, hlk']
      simp
    exact hatt
  · have hval : co_sub_get_val (co_obj_update w1 oid true) sid = none := by
      rw [hvalout' sid hsidnot, co_sub_get_val_some w1 sid _ hlksid]
      rfl
    exact hval
  · intro x hx v hv
    by_cases hxt : x ∈ obj.tree
    · have hxt1 : x ∈ obj.tree.filter (fun t => decide (t ≠ sid)) :=
        List.mem_filter.mpr ⟨hxt, by simp [hx]⟩
      rcases hs0 : alookup w.subs x with _ | s0
      · rw [co_sub_get_val_none _ _ hs0] at hv
        exact Option.noConfusion hv
      · have hlkx : alookup w1.subs x = some s0 :=
          (alookup_aset_ne w.subs sid x { sub with obj := none, val := none }
            fun h => hx h.symm).trans hs0
        have h5x := hvalin' x hxt1 s0 hlkx
        rw [co_sub_get_val_some _ _ _ hs0] at hv
        rcases hsv : s0.val with _ | p
        · rw [hsv] at hv
          exact Option.noConfusion (show (none : Option Int) = some v from hv)
        · rw [hsv] at hv h5x
          have hv2 : w.mem.read p = v :=
            Option.some.inj (show some (w.mem.read p) = some v from hv)
          have hgoal : co_sub_get_val (co_obj_update w1 oid true) x =
              some v := by
            rw [h5x]
            show some (w1.mem.read p) = some v
            rw [show w1.mem.read p = w.mem.read p from rfl, hv2]
          exact hgoal
    · have hxt1 : x ∉ obj.tree.filter (fun t => decide (t ≠ sid)) :=
        fun h => hxt (List.mem_filter.mp h).1
      have hval : co_sub_get_val (co_obj_update w1 oid true) x =
          co_sub_get_val w x := by
        rw [hvalout' x hxt1]
        exact co_sub_get_val_congr w1 w x
          (alookup_aset_ne w.subs sid x { sub with obj := none, val := none }
            fun h => hx h.symm)
          fun s hs p hp => rfl
      exact hval.trans hv

/--
When the insertion reshape's allocation fails, co_obj_insert_sub still
returns 0 and the result is exactly the membership-changed world: the
sub-object is attached and in the tree, while the memory, the value region
and every value pointer are left as they were.
-/
theorem co_obj_insert_sub_allocfail (w : World) (oid sid : Nat) (obj : CoObj)
    (sub : CoSub) (hWF : WF w) (hobj : alookup w.objs oid = some obj)
    (hsub : alookup w.subs sid = some sub) (hdet : sub.obj = none)
    (hfind : treeFind w.subs obj.tree sub.subidx = false) :
    co_obj_insert_sub w oid sid false =
      ({ w with
         subs := aset w.subs sid { sub with obj := some oid },
         objs := aset w.objs oid
           { obj with
             tree := treeInsert w.subs obj.tree sub.subidx sid } }, 0) := by
  have hWF1 := WF_insert_pre w oid sid obj sub hWF hobj hsub hdet hfind
  have hlkobj1 : alookup w.objs oid ≠ none := by
    rw [hobj]
    exact fun h => Option.noConfusion h
  rw [co_obj_insert_sub_eq_def w oid sid obj sub false hobj hsub,
    if_neg (fun h => h.1 hdet),
    if_neg (fun h => Option.noConfusion (hdet.symm.trans h)),
    if_neg (fun h => Bool.noConfusion (hfind.symm.trans h))]
  set w1 : World := { w with
    subs := aset w.subs sid { sub with obj := some oid },
    objs := aset w.objs oid
      { obj with
        tree := treeInsert w.subs obj.tree sub.subidx sid } } with hw1
  have hobj1 : alookup w1.objs oid =
      some { obj with tree := treeInsert w.subs obj.tree sub.subidx sid } :=
    alookup_aset_eq _ _ _ hlkobj1
  have hTl1 := tree_sub_lookup w1 oid
    { obj with tree := treeInsert w.subs obj.tree sub.subidx sid } hWF1 hobj1
  have hdom1 : ∀ x ∈ treeInsert w.subs obj.tree sub.subidx sid,
      alookup w1.subs x ≠ none := by
    intro x hx
    rcases hTl1 x hx with ⟨s, hs, _⟩
    rw [hs]
    exact fun h => Option.noConfusion h
  obtain ⟨_, _, _, _, _, _, _, _, _, h10w1, _, _, _⟩ := id hWF1
  have hsize1 : ∀ x ∈ treeInsert w.subs obj.tree sub.subidx sid,
      ∀ s : CoSub, alookup w1.subs x = some s → 0 < co_type_sizeof s.type :=
    fun x _ s hs => h10w1 (x, s) (mem_of_alookup _ _ _ hs)
  have htne : treeInsert w.subs obj.tree sub.subidx sid ≠ [] := by
    intro he
    have hmem : sid ∈ treeInsert w.subs obj.tree sub.subidx sid :=
      (mem_treeInsert _ _ _ _ _).mpr (Or.inl rfl)
    rw [he] at hmem
    exact List.not_mem_nil _ hmem
  have hsz1 : sizeLoop w1.subs
      (treeInsert w.subs obj.tree sub.subidx sid) 0 ≠ 0 :=
    Nat.pos_iff_ne_zero.mp (sizeLoop_pos_of_ne_nil _ _ htne hdom1 hsize1)
  rw [co_obj_update_fail_eq w1 oid
    { obj with tree := treeInsert w.subs obj.tree sub.subidx sid } hobj1 hsz1]

/--
When the removal reshape's allocation fails and the tree stays nonempty,
co_obj_remove_sub still returns 0 and the result is exactly the
membership-changed world: the sub-object is detached with its value pointer
cleared, while the memory and the value region are left as they were.
-/
theorem co_obj_remove_sub_allocfail (w : World) (oid sid : Nat) (obj : CoObj)
    (sub : CoSub) (hWF : WF w) (hobj : alookup w.objs oid = some obj)
    (hsub : alookup w.subs sid = some sub) (howner : sub.obj = some oid)
    (htne : obj.tree.filter (fun t => decide (t ≠ sid)) ≠ []) :
    co_obj_remove_sub w oid sid false =
      ({ w with
         subs := aset w.subs sid { sub with obj := none, val := none },
         objs := aset w.objs oid
           { obj with
             tree := obj.tree.filter (fun t => decide (t ≠ sid)) } }, 0) := by
  have hWF1 := WF_remove_pre w oid sid obj sub hWF hobj hsub howner
  have hlkobj1 : alookup w.objs oid ≠ none := by
    rw [hobj]
    exact fun h => Option.noConfusion h
  rw [co_obj_remove_sub_eq_def w oid sid obj sub false hobj hsub,
    if_neg (fun h => h howner)]
  set w1 : World := { w with
    subs := aset w.subs sid { sub with obj := none, val := none },
    objs := aset w.objs oid
      { obj with
        tree := obj.tree.filter (fun t => decide (t ≠ sid)) } } with hw1
  have hobj1 : alookup w1.objs oid =
      some { obj with tree := obj.tree.filter (fun t => decide (t ≠ sid)) } :=
    alookup_aset_eq _ _ _ hlkobj1
  have hTl1 := tree_sub_lookup w1 oid
    { obj with tree := obj.tree.filter (fun t => decide (t ≠ sid)) }
    hWF1 hobj1
  have hdom1 : ∀ x ∈ obj.tree.filter (fun t => decide (t ≠ sid)),
      alookup w1.subs x ≠ none := by
    intro x hx
    rcases hTl1 x hx with ⟨s, hs, _⟩
    rw [hs]
    exact fun h => Option.noConfusion h
  obtain ⟨_, _, _, _, _, _, _, _, _, h10w1, _, _, _⟩ := id hWF1
  have hsize1 : ∀ x ∈ obj.tree.filter (fun t => decide (t ≠ sid)),
      ∀ s : CoSub, alookup w1.subs x = some s → 0 < co_type_sizeof s.type :=
    fun x _ s hs => h10w1 (x, s) (mem_of_alookup _ _ _ hs)
  have hsz1 : sizeLoop w1.subs
      (obj.tree.filter (fun t => decide (t ≠ sid))) 0 ≠ 0 :=
    Nat.pos_iff_ne_zero.mp (sizeLoop_pos_of_ne_nil _ _ htne hdom1 hsize1)
  rw [co_obj_update_fail_eq w1 oid
    { obj with tree := obj.tree.filter (fun t => decide (t ≠ sid)) }
    hobj1 hsz1]

/-! ## Shared lemmas on the TIME service -/

/--
Characterization of co_time_update under successful allocation: afterwards a
receiver is registered exactly when the consumer bit is set (on the 29-bit
CAN-ID with the IDE flag when the frame bit is set, on the 11-bit CAN-ID
otherwise), a timer is allocated exactly when the producer bit is set, the
COB-ID is untouched, and the call reports success.
-/
theorem co_time_update_ok_spec (t : CoTimeSrv) :
    (co_time_update t true true).1.recv =
      (if t.cobid &&& CO_TIME_COBID_CONSUMER ≠ 0 then
        some (if t.cobid &&& CO_TIME_COBID_FRAME ≠ 0 then
          (t.cobid &&& CAN_MASK_EID, CAN_FLAG_IDE)
        else (t.cobid &&& CAN_MASK_BID, 0))
      else none) ∧
    (co_time_update t true true).1.timer =
      (t.cobid &&& CO_TIME_COBID_PRODUCER ≠ 0 : Bool) ∧
    (co_time_update t true true).1.cobid = t.cobid ∧
    (co_time_update t true true).2 = 0 := by
  have hprod : ∀ t1 : CoTimeSrv,
      co_time_update_producer t1 true =
        ({ t1 with timer := decide (t1.cobid &&& CO_TIME_COBID_PRODUCER ≠ 0) },
          0) := by
    intro t1
    rw [co_time_update_producer]
    by_cases hp : t1.cobid &&& CO_TIME_COBID_PRODUCER ≠ 0
    · rw [if_pos hp, if_neg (by simp), decide_eq_true hp]
    · rw [if_neg hp, decide_eq_false hp]
  have hmain : co_time_update t true true =
      ({ cobid := t.cobid,
         recv := if t.cobid &&& CO_TIME_COBID_CONSUMER ≠ 0 then
             some (if t.cobid &&& CO_TIME_COBID_FRAME ≠ 0 then
               (t.cobid &&& CAN_MASK_EID, CAN_FLAG_IDE)
             else (t.cobid &&& CAN_MASK_BID, 0))
           else none,
         timer := decide (t.cobid &&& CO_TIME_COBID_PRODUCER ≠ 0) }, 0) := by
    rw [co_time_update]
    by_cases hc : t.cobid &&& CO_TIME_COBID_CONSUMER ≠ 0
    · rw [if_pos hc, if_neg (by simp)]
      by_cases hf : t.cobid &&& CO_TIME_COBID_FRAME ≠ 0
      · rw [if_pos hf, hprod, if_pos hc, if_pos hf]
      · rw [if_neg hf, hprod, if_pos hc, if_neg hf]
    · rw [if_neg hc, hprod, if_neg hc]
  rw [hmain]
  refine ⟨rfl, ?_, rfl, rfl⟩
  by_cases hp : t.cobid &&& CO_TIME_COBID_PRODUCER ≠ 0 <;> simp [hp]

/-! ## Claim theorems -/

/--
C2. Bounds enforcement on write: for a basic-typed sub-object,
co_sub_chk_val accepts a candidate value exactly when the supplied type
matches the declared type and the value lies between min and max; a type
mismatch gives the type/length abort, inverted limits the range abort, a
value above max the 0x06090031 abort, a value below min the 0x06090032
abort; for a sub-object of non-basic type every value is accepted.
-/
theorem co_sub_chk_val_bounds (sub : CoSub) (type : Nat) (v : Int) :
    (co_type_is_basic sub.type = true →
      (co_sub_chk_val sub type v = 0 ↔
        sub.type = type ∧ sub.min ≤ v ∧ v ≤ sub.max)) ∧
    (co_type_is_basic sub.type = true → sub.type ≠ type →
      co_sub_chk_val sub type v = CO_SDO_AC_TYPE_LEN) ∧
    (co_type_is_basic sub.type = true → sub.type = type →
      sub.max < sub.min →
      co_sub_chk_val sub type v = CO_SDO_AC_PARAM_RANGE) ∧
    (co_type_is_basic sub.type = true → sub.type = type →
      sub.min ≤ sub.max → sub.max < v →
      co_sub_chk_val sub type v = CO_SDO_AC_PARAM_HI) ∧
    (co_type_is_basic sub.type = true → sub.type = type →
      sub.min ≤ sub.max → v < sub.min →
      co_sub_chk_val sub type v = CO_SDO_AC_PARAM_LO) ∧
    (co_type_is_basic sub.type = false →
      co_sub_chk_val sub type v = 0) := by
  have hgt : ∀ t : Nat, ∀ a b : Int, co_val_cmp t a b > 0 ↔ b < a := by
    intro t a b
    rw [co_val_cmp]
    split_ifs <;> omega
  have hlt : ∀ t : Nat, ∀ a b : Int, co_val_cmp t a b < 0 ↔ a < b := by
    intro t a b
    rw [co_val_cmp]
    split_ifs <;> omega
  have hcases : co_type_is_basic sub.type = true →
      co_sub_chk_val sub type v =
        if sub.type = type then
          if sub.max < sub.min then CO_SDO_AC_PARAM_RANGE
          else if sub.max < v then CO_SDO_AC_PARAM_HI
          else if v < sub.min then CO_SDO_AC_PARAM_LO
          else 0
        else CO_SDO_AC_TYPE_LEN := by
    intro hb
    rw [co_sub_chk_val, hb]
    simp only [Bool.not_true, Bool.false_eq_true, if_false, ne_eq, ite_not,
      hgt, hlt]
  refine ⟨?_, ?_, ?_, ?_, ?_, ?_⟩
  · intro hb
    rw [hcases hb]
    by_cases h1 : sub.type = type
    · rw [if_pos h1]
      split_ifs with h2 h3 h4
      · constructor
        · intro h
          exact absurd h (by decide)
        · rintro ⟨-, h5, h6⟩
          exact absurd h2 (by omega)
      · constructor
        · intro h
          exact absurd h (by decide)
        · rintro ⟨-, h5, h6⟩
          exact absurd h3 (by omega)
      · constructor
        · intro h
          exact absurd h (by decide)
        · rintro ⟨-, h5, h6⟩
          exact absurd h4 (by omega)
      · exact ⟨fun _ => ⟨h1, by omega, by omega⟩, fun _ => rfl⟩
    · rw [if_neg h1]
      constructor
      · intro h
        exact absurd h (by decide)
      · rintro ⟨h2, -⟩
        exact absurd h2 h1
  · intro hb hne
    rw [hcases hb, if_neg hne]
  · intro hb hty hinv
    rw [hcases hb, if_pos hty, if_pos hinv]
  · intro hb hty hmm hhi
    rw [hcases hb, if_pos hty, if_neg (by omega), if_pos hhi]
  · intro hb hty hmm hlo
    rw [hcases hb, if_pos hty, if_neg (by omega), if_neg (by omega),
      if_pos hlo]
  · intro hb
    rw [co_sub_chk_val, hb]
    simp

/--
Witness for C2 at concrete inputs: an in-range value is accepted, a value
above max gives 0x06090031, a value below min gives 0x06090032, a type
mismatch gives the type/length abort.
-/
theorem co_sub_chk_val_bounds_witness :
    co_sub_chk_val chkValSub CO_DEFTYPE_UNSIGNED32 5 = 0 ∧
    co_sub_chk_val chkValSub CO_DEFTYPE_UNSIGNED32 11 = CO_SDO_AC_PARAM_HI ∧
    co_sub_chk_val chkValSub CO_DEFTYPE_UNSIGNED32 (-1) = CO_SDO_AC_PARAM_LO ∧
    co_sub_chk_val chkValSub CO_DEFTYPE_UNSIGNED16 5 = CO_SDO_AC_TYPE_LEN := by
  refine ⟨?_, ?_, ?_, ?_⟩
  · exact ((co_sub_chk_val_bounds chkValSub CO_DEFTYPE_UNSIGNED32 5).1
      (by decide)).mpr ⟨by decide, by decide, by decide⟩
  · exact (co_sub_chk_val_bounds chkValSub CO_DEFTYPE_UNSIGNED32 11).2.2.2.1
      (by decide) (by decide) (by decide) (by decide)
  · exact (co_sub_chk_val_bounds chkValSub CO_DEFTYPE_UNSIGNED32 (-1)).2.2.2.2.1
      (by decide) (by decide) (by decide) (by decide)
  · exact (co_sub_chk_val_bounds chkValSub CO_DEFTYPE_UNSIGNED16 5).2.1
      (by decide) (by decide)

/--
C4. Access-gated SDO indications: co_sub_dn_ind on an absent (NULL)
sub-object returns the sub-index-does-not-exist abort 0x06090011, and on a
sub-object whose access mode lacks write permission returns the
read-only-object abort 0x06010002; co_sub_up_ind symmetrically returns
0x06090011 on an absent sub-object and the write-only-object abort
0x06010001 when read permission is lacking. In each case the result is the
same for every stored indication callback ind, which expresses that the
callback is not invoked.
-/
theorem sdo_indication_access_gating :
    (∀ req ind, co_sub_dn_ind none req ind = CO_SDO_AC_NO_SUB) ∧
    (∀ s req ind, s.access &&& CO_ACCESS_WRITE = 0 →
      co_sub_dn_ind (some s) req ind = CO_SDO_AC_NO_WRITE) ∧
    (∀ req ind, co_sub_up_ind none req ind = CO_SDO_AC_NO_SUB) ∧
    (∀ s req ind, s.access &&& CO_ACCESS_READ = 0 →
      co_sub_up_ind (some s) req ind = CO_SDO_AC_NO_READ) := by
  refine ⟨fun req ind => rfl, ?_, fun req ind => rfl, ?_⟩
  · intro s req ind h
    simp [co_sub_dn_ind, h]
  · intro s req ind h
    simp [co_sub_up_ind, h]

/--
Witness for C4 at concrete inputs: a download to a read-only sub-object and
an upload from a write-only sub-object are refused with the pinned abort
codes, for an arbitrary concrete callback.
-/
theorem sdo_indication_access_gating_witness :
    co_sub_dn_ind (some roSub) (some ()) (fun _ _ => 7) = CO_SDO_AC_NO_WRITE ∧
    co_sub_up_ind (some woSub) (some ()) (fun _ _ => 7) = CO_SDO_AC_NO_READ ∧
    co_sub_dn_ind none (some ()) (fun _ _ => 7) = CO_SDO_AC_NO_SUB := by
  refine ⟨?_, ?_, ?_⟩
  · exact sdo_indication_access_gating.2.1 roSub (some ()) (fun _ _ => 7)
      (by decide)
  · exact sdo_indication_access_gating.2.2.2 woSub (some ()) (fun _ _ => 7)
      (by decide)
  · exact sdo_indication_access_gating.1 (some ()) (fun _ _ => 7)

/--
C6 counterexample. The frame A0 86 01 00 2C 2F decodes to ms-of-day 100000
and day count 12076, and the indication receives tv_sec 1485129700; but the
Unix time of 2017-01-01 00:01:40 UTC is 1483228900, so the claimed UTC
instant is not the one delivered (day 12076 from 1984-01-01 is 2017-01-23,
not 2017-01-01).
-/
theorem time_consumer_decode_counterexample :
    co_time_recv timeMsg2017 =
      (0, some { tv_sec := 1485129700, tv_nsec := 0 }) ∧
    unixOfUTC 2017 1 1 0 1 40 = 1483228900 ∧
    (1485129700 : Int) ≠ 1483228900 := by
  decide

/--
C6 amended. For every received classical data frame of length at least 6,
the TIME service decodes bytes 0..3 as a little-endian 32-bit value reduced
modulo 2^28 (ms-of-day) and bytes 4..5 as a little-endian 16-bit day count
since 1984-01-01, converts to an absolute (Unix-epoch) time and invokes the
user indication with it; the concrete frame A0 86 01 00 2C 2F decodes to
ms-of-day 100000 and days 12076, and the indication receives the timespec
of 2017-01-23 00:01:40 UTC (not 2017-01-01 as the specification says).
-/
theorem time_consumer_decode (msg : CanMsg)
    (hr : msg.flags &&& CAN_FLAG_RTR = 0)
    (he : msg.flags &&& CAN_FLAG_EDL = 0)
    (hl : 6 ≤ msg.len) :
    co_time_recv msg =
      (0, some
        { tv_sec := ((ldle_u16 (msg.data.drop 4) * 86400 +
            ldle_u32 msg.data % 2 ^ 28 / 1000 + 441763200 : Nat) : Int)
          tv_nsec := ((ldle_u32 msg.data % 2 ^ 28 % 1000 * 1000000 : Nat) : Int) }) ∧
    co_time_recv timeMsg2017 =
      (0, some { tv_sec := unixOfUTC 2017 1 23 0 1 40, tv_nsec := 0 }) := by
  constructor
  · rw [co_time_recv]
    rw [if_neg (by simp [hr]), if_neg (by simp [he]), if_neg (by omega)]
    simp only [co_time_of_day_get, co_time_diff_get]
    rw [show (0x0fffffff : Nat) = 2 ^ 28 - 1 by norm_num,
      Nat.and_pow_two_sub_one_eq_mod]
    simp only [Prod.mk.injEq, Option.some.injEq, Timespec.mk.injEq]
    refine ⟨trivial, ?_, ?_⟩ <;> omega
  · decide

/--
Witness for C6 amended at the concrete frame: the classical 6-byte frame is
accepted and decoded.
-/
theorem time_consumer_decode_witness :
    co_time_recv timeMsg2017 =
      (0, some
        { tv_sec := ((ldle_u16 (timeMsg2017.data.drop 4) * 86400 +
            ldle_u32 timeMsg2017.data % 2 ^ 28 / 1000 + 441763200 : Nat) : Int)
          tv_nsec := ((ldle_u32 timeMsg2017.data % 2 ^ 28 % 1000 *
            1000000 : Nat) : Int) }) :=
  (time_consumer_decode timeMsg2017 (by decide) (by decide) (by decide)).1

/--
C7. TIME COB-ID enable bits: after co_time_update with the stored COB-ID c
and successful allocations, a frame receiver is registered if and only if
the consumer bit 30 of c is set, and a producer timer is allocated if and
only if the producer bit 31 of c is set; when bit 29 is set the receiver is
registered under the 29-bit CAN-ID with the IDE (extended frame) flag,
otherwise under the 11-bit CAN-ID.
-/
theorem time_cobid_enable_bits (t : CoTimeSrv) :
    ((co_time_update t true true).1.recv ≠ none ↔
      t.cobid &&& CO_TIME_COBID_CONSUMER ≠ 0) ∧
    ((co_time_update t true true).1.timer = true ↔
      t.cobid &&& CO_TIME_COBID_PRODUCER ≠ 0) ∧
    (t.cobid &&& CO_TIME_COBID_CONSUMER ≠ 0 →
      t.cobid &&& CO_TIME_COBID_FRAME ≠ 0 →
      (co_time_update t true true).1.recv =
        some (t.cobid &&& CAN_MASK_EID, CAN_FLAG_IDE)) ∧
    (t.cobid &&& CO_TIME_COBID_CONSUMER ≠ 0 →
      t.cobid &&& CO_TIME_COBID_FRAME = 0 →
      (co_time_update t true true).1.recv =
        some (t.cobid &&& CAN_MASK_BID, 0)) := by
  obtain ⟨h1, h2, h3, h4⟩ := co_time_update_ok_spec t
  refine ⟨?_, ?_, ?_, ?_⟩
  · rw [h1]
    by_cases hc : t.cobid &&& CO_TIME_COBID_CONSUMER ≠ 0 <;> simp [hc]
  · rw [h2]
    by_cases hp : t.cobid &&& CO_TIME_COBID_PRODUCER ≠ 0 <;> simp [hp]
  · intro hc hf
    rw [h1, if_pos hc, if_pos hf]
  · intro hc hf
    rw [h1, if_pos hc, if_neg (by simp [hf])]

/--
Witness for C7 at a concrete COB-ID: consumer enabled on the 11-bit ID
0x100 (value 0x40000100) registers a receiver on (0x100, 0) and keeps no
timer.
-/
theorem time_cobid_enable_bits_witness :
    ((co_time_update { cobid := 0x40000100, recv := none, timer := false }
        true true).1.recv =
      some (0x100, 0)) ∧
    ((co_time_update { cobid := 0x40000100, recv := none, timer := false }
        true true).1.timer = false) := by
  constructor
  · exact (time_cobid_enable_bits
      { cobid := 0x40000100, recv := none, timer := false }).2.2.2
      (by decide) (by decide)
  · have h := (time_cobid_enable_bits
      { cobid := 0x40000100, recv := none, timer := false }).2.1
    by_cases hb : (co_time_update
        { cobid := 0x40000100, recv := none, timer := false } true true).1.timer =
        true
    · exact absurd (h.mp hb) (by decide)
    · simpa using hb

/--
C8 counterexample. The claim places TIME_OF_DAY and TIME_DIFF in the basic
family and has them participate in min/max bounds checking; the repository
unit test pins co_type_is_basic to false on both (and co_type_is_array is
false on both as well, so the two families do not cover every type code),
and co_sub_chk_val consequently accepts any candidate value for a
sub-object of either type — even a value outside inverted min/max limits
draws no abort code.
-/
theorem type_families_counterexample :
    co_type_is_basic CO_DEFTYPE_TIME_OF_DAY = false ∧
    co_type_is_array CO_DEFTYPE_TIME_OF_DAY = false ∧
    co_type_is_basic CO_DEFTYPE_TIME_DIFF = false ∧
    co_type_is_array CO_DEFTYPE_TIME_DIFF = false ∧
    co_sub_chk_val
      { obj := none, subidx := 0, type := CO_DEFTYPE_TIME_OF_DAY, min := 5,
        max := 1, dflt := 0, access := CO_ACCESS_RW, val := none }
      CO_DEFTYPE_TIME_OF_DAY 999 = 0 ∧
    co_sub_chk_val
      { obj := none, subidx := 0, type := CO_DEFTYPE_TIME_DIFF, min := 0,
        max := 10, dflt := 0, access := CO_ACCESS_RW, val := none }
      CO_DEFTYPE_TIME_DIFF 999 = 0 := by
  decide

/--
C8 amended. The basic and array families are disjoint; the array family is
exactly VISIBLE_STRING, OCTET_STRING, UNICODE_STRING and DOMAIN; the basic
family is exactly BOOLEAN, the eight signed and eight unsigned integer
widths, REAL32 and REAL64 — TIME_OF_DAY and TIME_DIFF belong to neither
family, and consequently do not take part in min/max bounds checking:
co_sub_chk_val accepts every value for a sub-object of either type.
-/
theorem type_families_partition :
    (∀ t, ¬(co_type_is_basic t = true ∧ co_type_is_array t = true)) ∧
    (∀ t, co_type_is_array t = true ↔
      (t = CO_DEFTYPE_VISIBLE_STRING ∨ t = CO_DEFTYPE_OCTET_STRING ∨
        t = CO_DEFTYPE_UNICODE_STRING ∨ t = CO_DEFTYPE_DOMAIN)) ∧
    (∀ t, co_type_is_basic t = true ↔
      (t = CO_DEFTYPE_BOOLEAN ∨ t = CO_DEFTYPE_INTEGER8 ∨
        t = CO_DEFTYPE_INTEGER16 ∨ t = CO_DEFTYPE_INTEGER24 ∨
        t = CO_DEFTYPE_INTEGER32 ∨ t = CO_DEFTYPE_INTEGER40 ∨
        t = CO_DEFTYPE_INTEGER48 ∨ t = CO_DEFTYPE_INTEGER56 ∨
        t = CO_DEFTYPE_INTEGER64 ∨ t = CO_DEFTYPE_UNSIGNED8 ∨
        t = CO_DEFTYPE_UNSIGNED16 ∨ t = CO_DEFTYPE_UNSIGNED24 ∨
        t = CO_DEFTYPE_UNSIGNED32 ∨ t = CO_DEFTYPE_UNSIGNED40 ∨
        t = CO_DEFTYPE_UNSIGNED48 ∨ t = CO_DEFTYPE_UNSIGNED56 ∨
        t = CO_DEFTYPE_UNSIGNED64 ∨ t = CO_DEFTYPE_REAL32 ∨
        t = CO_DEFTYPE_REAL64)) ∧
    (co_type_is_basic CO_DEFTYPE_TIME_OF_DAY = false ∧
      co_type_is_array CO_DEFTYPE_TIME_OF_DAY = false ∧
      co_type_is_basic CO_DEFTYPE_TIME_DIFF = false ∧
      co_type_is_array CO_DEFTYPE_TIME_DIFF = false) ∧
    (∀ sub : CoSub, ∀ type : Nat, ∀ v : Int,
      sub.type = CO_DEFTYPE_TIME_OF_DAY ∨ sub.type = CO_DEFTYPE_TIME_DIFF →
      co_sub_chk_val sub type v = 0) := by
  refine ⟨?_, ?_, ?_, by decide, ?_⟩
  · intro t h
    obtain ⟨hb, ha⟩ := h
    rw [co_type_is_array] at ha
    simp only [Bool.or_eq_true, decide_eq_true_eq] at ha
    rcases ha with ((h | h) | h) | h <;> subst h <;> revert hb <;> decide
  · intro t
    rw [co_type_is_array]
    simp only [Bool.or_eq_true, decide_eq_true_eq]
    tauto
  · intro t
    rw [co_type_is_basic]
    simp only [Bool.or_eq_true, decide_eq_true_eq]
    tauto
  · intro sub type v h
    have hb : co_type_is_basic sub.type = false := by
      rcases h with h | h <;> rw [h] <;> decide
    rw [co_sub_chk_val, if_pos (show (!co_type_is_basic sub.type) = true by
      rw [hb]
      decide)]

/--
Witness for C8 amended at a concrete sub-object: a TIME_OF_DAY sub-object
accepts any candidate value, bounds notwithstanding.
-/
theorem type_families_partition_witness :
    co_sub_chk_val
      { obj := none, subidx := 0, type := CO_DEFTYPE_TIME_OF_DAY, min := 5,
        max := 1, dflt := 0, access := CO_ACCESS_RW, val := none }
      CO_DEFTYPE_TIME_OF_DAY 99 = 0 ∧
    co_type_is_array CO_DEFTYPE_DOMAIN = true := by
  constructor
  · exact type_families_partition.2.2.2.2
      { obj := none, subidx := 0, type := CO_DEFTYPE_TIME_OF_DAY, min := 5,
        max := 1, dflt := 0, access := CO_ACCESS_RW, val := none }
      CO_DEFTYPE_TIME_OF_DAY 99 (Or.inl rfl)
  · exact (type_families_partition.2.1 CO_DEFTYPE_DOMAIN).mpr
      (Or.inr (Or.inr (Or.inr rfl)))

/--
C9. TIME consumer silent drop: a received frame with the RTR flag set, or
the EDL (CAN FD) flag set, or fewer than 6 data bytes makes co_time_recv
return success (0) without invoking the user indication and with no other
observable effect (the model returns the whole effect of the callback; none
renders no-indication, and the source mutates no state and sends nothing on
these paths).
-/
theorem time_consumer_silent_drop (msg : CanMsg)
    (h : msg.flags &&& CAN_FLAG_RTR ≠ 0 ∨ msg.flags &&& CAN_FLAG_EDL ≠ 0 ∨
      msg.len < 6) :
    co_time_recv msg = (0, none) := by
  rw [co_time_recv]
  split_ifs with h1 h2 h3
  · rfl
  · rfl
  · rfl
  · rcases h with h | h | h
    · exact absurd h h1
    · exact absurd h h2
    · exact absurd h h3

/--
Witness for C9 at concrete frames: a remote frame, a CAN FD frame and a
short frame are each dropped.
-/
theorem time_consumer_silent_drop_witness :
    co_time_recv
      { id := 0x100, flags := CAN_FLAG_RTR, len := 6,
        data := [0xA0, 0x86, 0x01, 0x00, 0x2C, 0x2F] } = (0, none) ∧
    co_time_recv
      { id := 0x100, flags := CAN_FLAG_EDL, len := 6,
        data := [0xA0, 0x86, 0x01, 0x00, 0x2C, 0x2F] } = (0, none) ∧
    co_time_recv
      { id := 0x100, flags := 0, len := 5,
        data := [0xA0, 0x86, 0x01, 0x00, 0x2C] } = (0, none) := by
  refine ⟨?_, ?_, ?_⟩
  · exact time_consumer_silent_drop _ (Or.inl (by decide))
  · exact time_consumer_silent_drop _ (Or.inr (Or.inl (by decide)))
  · exact time_consumer_silent_drop _ (Or.inr (Or.inr (by decide)))

/--
C10. Validation of SDO writes to object 1012: a download to a nonzero
sub-index aborts with the sub-index-does-not-exist code; a download of the
currently stored COB-ID succeeds and changes nothing; when the service is
active (producer or consumer bit set) both in the old and in the new value
and the CAN-ID bits differ, the download aborts with the
invalid-parameter-value code and leaves the stored COB-ID and service state
unchanged; a value with bits in the 29-bit CAN-ID range beyond the 11-bit
range but frame bit 29 clear aborts likewise; every accepted value is
committed to the sub-object and the receiver and timer activation is
re-evaluated from it by co_time_update.
-/
theorem cobid_1012_download_validation (s : CoTime1012) (subidx cobid : Nat)
    (rOk tOk : Bool) :
    (subidx ≠ 0 →
      co_1012_dn_ind s subidx cobid rOk tOk = (s, CO_SDO_AC_NO_SUB)) ∧
    (cobid = s.stored → co_1012_dn_ind s 0 cobid rOk tOk = (s, 0)) ∧
    (cobid ≠ s.stored →
      (cobid &&& CO_TIME_COBID_PRODUCER ≠ 0 ∨
        cobid &&& CO_TIME_COBID_CONSUMER ≠ 0) →
      (s.stored &&& CO_TIME_COBID_PRODUCER ≠ 0 ∨
        s.stored &&& CO_TIME_COBID_CONSUMER ≠ 0) →
      cobid &&& CAN_MASK_EID ≠ s.stored &&& CAN_MASK_EID →
      co_1012_dn_ind s 0 cobid rOk tOk = (s, CO_SDO_AC_PARAM_VAL)) ∧
    (cobid ≠ s.stored → cobid &&& CO_TIME_COBID_FRAME = 0 →
      cobid &&& (CAN_MASK_EID ^^^ CAN_MASK_BID) ≠ 0 →
      co_1012_dn_ind s 0 cobid rOk tOk = (s, CO_SDO_AC_PARAM_VAL)) ∧
    (cobid ≠ s.stored →
      ¬((cobid &&& CO_TIME_COBID_PRODUCER ≠ 0 ∨
          cobid &&& CO_TIME_COBID_CONSUMER ≠ 0) ∧
        (s.stored &&& CO_TIME_COBID_PRODUCER ≠ 0 ∨
          s.stored &&& CO_TIME_COBID_CONSUMER ≠ 0) ∧
        cobid &&& CAN_MASK_EID ≠ s.stored &&& CAN_MASK_EID) →
      ¬(cobid &&& CO_TIME_COBID_FRAME = 0 ∧
        cobid &&& (CAN_MASK_EID ^^^ CAN_MASK_BID) ≠ 0) →
      co_1012_dn_ind s 0 cobid rOk tOk =
        ({ srv := (co_time_update { s.srv with cobid := cobid } rOk tOk).1,
           stored := cobid }, 0)) := by
  refine ⟨?_, ?_, ?_, ?_, ?_⟩
  · intro h
    rw [co_1012_dn_ind, if_pos h]
  · intro h
    rw [co_1012_dn_ind, if_neg (by simp), if_pos h]
  · intro hne hact hacto hcan
    rw [co_1012_dn_ind, if_neg (by simp), if_neg hne,
      if_pos ⟨hact, hacto, hcan⟩]
  · intro hne hframe hebits
    rw [co_1012_dn_ind, if_neg (by simp), if_neg hne]
    split_ifs with h1 h2
    · rfl
    · rfl
    · exact absurd ⟨hframe, hebits⟩ h2
  · intro hne hnact hnframe
    rw [co_1012_dn_ind, if_neg (by simp), if_neg hne, if_neg hnact,
      if_neg hnframe]

/--
Witness for C10 at concrete inputs: sub-index 1 aborts with 0x06090011;
rewriting the stored value succeeds unchanged; changing the CAN-ID of an
active consumer aborts with the invalid-parameter-value code; a 29-bit
CAN-ID without the frame bit aborts likewise; disabling the service while
changing the CAN-ID is accepted and committed.
-/
theorem cobid_1012_download_validation_witness :
    co_1012_dn_ind
      { srv := { cobid := 0x40000100, recv := some (0x100, 0), timer := false },
        stored := 0x40000100 } 1 0x40000101 true true =
      ({ srv := { cobid := 0x40000100, recv := some (0x100, 0), timer := false },
         stored := 0x40000100 }, CO_SDO_AC_NO_SUB) ∧
    co_1012_dn_ind
      { srv := { cobid := 0x40000100, recv := some (0x100, 0), timer := false },
        stored := 0x40000100 } 0 0x40000100 true true =
      ({ srv := { cobid := 0x40000100, recv := some (0x100, 0), timer := false },
         stored := 0x40000100 }, 0) ∧
    co_1012_dn_ind
      { srv := { cobid := 0x40000100, recv := some (0x100, 0), timer := false },
        stored := 0x40000100 } 0 0x40000101 true true =
      ({ srv := { cobid := 0x40000100, recv := some (0x100, 0), timer := false },
         stored := 0x40000100 }, CO_SDO_AC_PARAM_VAL) ∧
    co_1012_dn_ind
      { srv := { cobid := 0x40000100, recv := some (0x100, 0), timer := false },
        stored := 0x40000100 } 0 0x1000 true true =
      ({ srv := { cobid := 0x40000100, recv := some (0x100, 0), timer := false },
         stored := 0x40000100 }, CO_SDO_AC_PARAM_VAL) ∧
    co_1012_dn_ind
      { srv := { cobid := 0x40000100, recv := some (0x100, 0), timer := false },
        stored := 0x40000100 } 0 0x180 true true =
      ({ srv := { cobid := 0x180, recv := none, timer := false },
         stored := 0x180 }, 0) := by
  refine ⟨?_, ?_, ?_, ?_, ?_⟩
  · exact (cobid_1012_download_validation _ 1 0x40000101 true true).1
      (by decide)
  · exact (cobid_1012_download_validation _ 0 0x40000100 true true).2.1 rfl
  · exact (cobid_1012_download_validation _ 0 0x40000101 true true).2.2.1
      (by decide) (Or.inr (by decide)) (Or.inr (by decide)) (by decide)
  · exact (cobid_1012_download_validation _ 0 0x1000 true true).2.2.2.1
      (by decide) (by decide) (by decide)
  · have h := (cobid_1012_download_validation
      { srv := { cobid := 0x40000100, recv := some (0x100, 0), timer := false },
        stored := 0x40000100 } 0 0x180 true true).2.2.2.2
      (by decide) (by decide) (by decide)
    rw [h]
    decide

/-! ## Claims C1, C3, C5: the dictionary reshape -/

theorem step_noop_spec (w : World) (op : DictOp) (hWF : WF w)
    (r : Int) (he : stepOp w op true = (w, r)) :
    WF (stepOp w op true).1 ∧
    (∀ x, subAttached w x = true → subAttached (stepOp w op true).1 x = true →
      ∀ v, co_sub_get_val w x = some v →
        co_sub_get_val (stepOp w op true).1 x = some v) := by
  rw [he]
  exact ⟨hWF, fun x _ _ v hv => hv⟩

/--
C1 counterexample: inserting the detached sub-object 6 (default value 42)
into object 1 of the concrete well-formed world wDict succeeds, and the
newly attached sub-object reads back 0 — the calloc zero fill — and not its
default value 42; the C code never copies sub->def into the value region.
-/
theorem dict_reshape_preserves_values_counterexample :
    subDict6.dflt = 42 ∧
    (co_obj_insert_sub wDict 1 6 true).2 = 0 ∧
    co_sub_get_val (co_obj_insert_sub wDict 1 6 true).1 6 = some 0 ∧
    co_sub_get_val (co_obj_insert_sub wDict 1 6 true).1 6 ≠ some 42 ∧
    co_sub_get_val (co_obj_insert_sub wDict 1 6 true).1 5 = some 7 := by
  decide

/--
**C1** (amended): on a well-formed world, any co_obj_insert_sub or
co_obj_remove_sub step with successful allocations preserves
well-formedness; every sub-object attached before and after the step reads
back exactly the value it held before (the reshape moves each stored value
to its recomputed per-type-aligned offset in the rebuilt region); and a
newly inserted sub-object reads back zero — the calloc fill of the new
region — not its default value.
-/
theorem dict_reshape_preserves_values (w : World) (op : DictOp)
    (hWF : WF w) :
    WF (stepOp w op true).1 ∧
    (∀ x, subAttached w x = true → subAttached (stepOp w op true).1 x = true →
      ∀ v, co_sub_get_val w x = some v →
        co_sub_get_val (stepOp w op true).1 x = some v) ∧
    (∀ oid sid : Nat, ∀ obj : CoObj, ∀ sub : CoSub, op = .ins oid sid →
      alookup w.objs oid = some obj → alookup w.subs sid = some sub →
      sub.obj = none → treeFind w.subs obj.tree sub.subidx = false →
      co_sub_get_val (stepOp w op true).1 sid = some 0) := by
  rcases op with ⟨oid, sid⟩ | ⟨oid, sid⟩
  · rcases hobj : alookup w.objs oid with _ | obj
    · have he : stepOp w (.ins oid sid) true = (w, -1) :=
        co_obj_insert_sub_noobj w oid sid true hobj
      obtain ⟨hA, hB⟩ := step_noop_spec w _ hWF _ he
      refine ⟨hA, hB, ?_⟩
      intro oid2 sid2 obj2 sub2 hop hobj2 hsub2 hdet2 hfind2
      injection hop with e1 e2
      subst e1
      subst e2
      rw [hobj] at hobj2
      exact Option.noConfusion hobj2
    rcases hsub : alookup w.subs sid with _ | sub
    · have he : stepOp w (.ins oid sid) true = (w, -1) :=
        co_obj_insert_sub_nosub w oid sid obj true hobj hsub
      obtain ⟨hA, hB⟩ := step_noop_spec w _ hWF _ he
      refine ⟨hA, hB, ?_⟩
      intro oid2 sid2 obj2 sub2 hop hobj2 hsub2 hdet2 hfind2
      injection hop with e1 e2
      subst e1
      subst e2
      rw [hsub] at hsub2
      exact Option.noConfusion hsub2
    rcases hso : sub.obj with _ | oidOwn
    · rcases hfind : treeFind w.subs obj.tree sub.subidx with _ | _
      · obtain ⟨hret, hWF', hzero, hatt, hpres⟩ :=
          co_obj_insert_sub_success w oid sid obj sub hWF hobj hsub hso hfind
        refine ⟨hWF', ?_, ?_⟩
        · intro x hxbef hxaft v hv
          refine hpres x ?_ v hv
          intro he2
          subst he2
          rw [subAttached, hsub] at hxbef
          simp [hso] at hxbef
        · intro oid2 sid2 obj2 sub2 hop hobj2 hsub2 hdet2 hfind2
          injection hop with e1 e2
          subst e1
          subst e2
          exact hzero
      · have he : stepOp w (.ins oid sid) true = (w, -1) := by
          show co_obj_insert_sub w oid sid true = (w, -1)
          rw [co_obj_insert_sub_eq_def w oid sid obj sub true hobj hsub,
            if_neg (fun h => h.1 hso),
            if_neg (fun h => Option.noConfusion (hso.symm.trans h)),
            if_pos hfind]
        obtain ⟨hA, hB⟩ := step_noop_spec w _ hWF _ he
        refine ⟨hA, hB, ?_⟩
        intro oid2 sid2 obj2 sub2 hop hobj2 hsub2 hdet2 hfind2
        injection hop with e1 e2
        subst e1
        subst e2
        rw [hsub] at hsub2
        obtain rfl : sub = sub2 := Option.some.inj hsub2
        rw [hobj] at hobj2
        obtain rfl : obj = obj2 := Option.some.inj hobj2
        rw [hfind] at hfind2
        exact Bool.noConfusion hfind2
    · by_cases hown : oidOwn = oid
      · have he : stepOp w (.ins oid sid) true = (w, 0) := by
          show co_obj_insert_sub w oid sid true = (w, 0)
          rw [co_obj_insert_sub_eq_def w oid sid obj sub true hobj hsub,
            if_neg (fun h => h.2 (by rw [hso, hown])),
            if_pos (show sub.obj = some oid by rw [hso, hown])]
        obtain ⟨hA, hB⟩ := step_noop_spec w _ hWF _ he
        refine ⟨hA, hB, ?_⟩
        intro oid2 sid2 obj2 sub2 hop hobj2 hsub2 hdet2 hfind2
        injection hop with e1 e2
        subst e1
        subst e2
        rw [hsub] at hsub2
        obtain rfl : sub = sub2 := Option.some.inj hsub2
        rw [hso] at hdet2
        exact Option.noConfusion hdet2
      · have he : stepOp w (.ins oid sid) true = (w, -1) := by
          show co_obj_insert_sub w oid sid true = (w, -1)
          rw [co_obj_insert_sub_eq_def w oid sid obj sub true hobj hsub,
            if_pos ⟨by
              rw [hso]
              exact fun h => Option.noConfusion h, by
              rw [hso]
              exact fun h => hown (Option.some.inj h)⟩]
        obtain ⟨hA, hB⟩ := step_noop_spec w _ hWF _ he
        refine ⟨hA, hB, ?_⟩
        intro oid2 sid2 obj2 sub2 hop hobj2 hsub2 hdet2 hfind2
        injection hop with e1 e2
        subst e1
        subst e2
        rw [hsub] at hsub2
        obtain rfl : sub = sub2 := Option.some.inj hsub2
        rw [hso] at hdet2
        exact Option.noConfusion hdet2
  · rcases hobj : alookup w.objs oid with _ | obj
    · have he : stepOp w (.rem oid sid) true = (w, -1) :=
        co_obj_remove_sub_noobj w oid sid true hobj
      obtain ⟨hA, hB⟩ := step_noop_spec w _ hWF _ he
      refine ⟨hA, hB, ?_⟩
      intro oid2 sid2 obj2 sub2 hop hobj2 hsub2 hdet2 hfind2
      exact DictOp.noConfusion hop
    rcases hsub : alookup w.subs sid with _ | sub
    · have he : stepOp w (.rem oid sid) true = (w, -1) :=
        co_obj_remove_sub_nosub w oid sid obj true hobj hsub
      obtain ⟨hA, hB⟩ := step_noop_spec w _ hWF _ he
      refine ⟨hA, hB, ?_⟩
      intro oid2 sid2 obj2 sub2 hop hobj2 hsub2 hdet2 hfind2
      exact DictOp.noConfusion hop
    by_cases hown : sub.obj = some oid
    · obtain ⟨hret, hWF', hatt, hnone, hpres⟩ :=
        co_obj_remove_sub_success w oid sid obj sub hWF hobj hsub hown
      refine ⟨hWF', ?_, ?_⟩
      · intro x hxbef hxaft v hv
        refine hpres x ?_ v hv
        intro he2
        have hxaft2 : subAttached (co_obj_remove_sub w oid sid true).1 sid =
            true := he2 ▸ hxaft
        rw [hatt] at hxaft2
        exact Bool.noConfusion hxaft2
      · intro oid2 sid2 obj2 sub2 hop hobj2 hsub2 hdet2 hfind2
        exact DictOp.noConfusion hop
    · have he : stepOp w (.rem oid sid) true = (w, -1) := by
        show co_obj_remove_sub w oid sid true = (w, -1)
        rw [co_obj_remove_sub_eq_def w oid sid obj sub true hobj hsub,
          if_pos hown]
      obtain ⟨hA, hB⟩ := step_noop_spec w _ hWF _ he
      refine ⟨hA, hB, ?_⟩
      intro oid2 sid2 obj2 sub2 hop hobj2 hsub2 hdet2 hfind2
      exact DictOp.noConfusion hop

/--
Witness for C1: on the concrete well-formed world wDict, inserting the
detached sub-object 6 into object 1 leaves the new sub-object reading zero.
-/
theorem dict_reshape_preserves_values_witness :
    WF wDict ∧
    co_sub_get_val (stepOp wDict (DictOp.ins 1 6) true).1 6 = some 0 :=
  ⟨by decide,
    (dict_reshape_preserves_values wDict (DictOp.ins 1 6)
        (by decide)).2.2 1 6 objDict subDict6 rfl (by decide) (by decide)
      (by decide) (by decide)⟩

/--
C3 counterexample: on the concrete well-formed world wDict, inserting the
detached sub-object 6 into object 1 while the region allocation fails does
not fail atomically: the call still returns 0, the world is changed, the
sub-object is attached and in the tree, but it has no value slot — a
partially completed reshape is observable.
-/
theorem reshape_failure_not_atomic_counterexample :
    (co_obj_insert_sub wDict 1 6 false).2 = 0 ∧
    (co_obj_insert_sub wDict 1 6 false).1 ≠ wDict ∧
    subAttached (co_obj_insert_sub wDict 1 6 false).1 6 = true ∧
    co_sub_get_val (co_obj_insert_sub wDict 1 6 false).1 6 = none := by
  decide

/--
**C3** (amended): when the allocation of the new value region fails, the
attempted co_obj_insert_sub or co_obj_remove_sub does NOT fail atomically:
it still returns 0 and the result is exactly the membership-changed world —
the owner pointer and the tree are updated (and removal has already cleared
the removed sub-object's value pointer), while the memory, the object's
value region pointer and size, and every other sub-object's value pointer
are left as they were, without any migration to a new region.
-/
theorem reshape_failure_not_atomic (w : World) (oid sid : Nat) (obj : CoObj)
    (sub : CoSub) (hWF : WF w) (hobj : alookup w.objs oid = some obj)
    (hsub : alookup w.subs sid = some sub) :
    (sub.obj = none → treeFind w.subs obj.tree sub.subidx = false →
      co_obj_insert_sub w oid sid false =
        ({ w with
           subs := aset w.subs sid { sub with obj := some oid },
           objs := aset w.objs oid
             { obj with
               tree := treeInsert w.subs obj.tree sub.subidx sid } }, 0)) ∧
    (sub.obj = some oid → obj.tree.filter (fun t => decide (t ≠ sid)) ≠ [] →
      co_obj_remove_sub w oid sid false =
        ({ w with
           subs := aset w.subs sid { sub with obj := none, val := none },
           objs := aset w.objs oid
             { obj with
               tree := obj.tree.filter (fun t => decide (t ≠ sid)) } }, 0)) :=
  ⟨fun hdet hfind =>
    co_obj_insert_sub_allocfail w oid sid obj sub hWF hobj hsub hdet hfind,
  fun hown htne =>
    co_obj_remove_sub_allocfail w oid sid obj sub hWF hobj hsub hown htne⟩

/--
Witness for C3: on the concrete well-formed world wDict, an insertion whose
region allocation fails still reports success.
-/
theorem reshape_failure_not_atomic_witness :
    WF wDict ∧ (co_obj_insert_sub wDict 1 6 false).2 = 0 :=
  ⟨by decide, by
    rw [(reshape_failure_not_atomic wDict 1 6 objDict subDict6 (by decide)
        (by decide) (by decide)).1 (by decide) (by decide)]⟩

/--
**C5**: co_obj_insert_sub fails with -1 and no effect when the sub-object
is attached to a different object or when the object already holds the
sub-index; it succeeds with no effect when the sub-object is already
attached to this object; co_obj_remove_sub fails with -1 and no effect
unless the sub-object is attached to this object, and on success detaches
it and drops its stored value; and in every well-formed world a sub-object
belongs to at most one object's tree, so each sub-object has at most one
owner.
-/
theorem sub_at_most_one_owner (w : World) (oid sid : Nat) (obj : CoObj)
    (sub : CoSub) (hWF : WF w) (hobj : alookup w.objs oid = some obj)
    (hsub : alookup w.subs sid = some sub) :
    (∀ oid2, sub.obj = some oid2 → oid2 ≠ oid →
      co_obj_insert_sub w oid sid true = (w, -1)) ∧
    (sub.obj = some oid → co_obj_insert_sub w oid sid true = (w, 0)) ∧
    (sub.obj = none → treeFind w.subs obj.tree sub.subidx = true →
      co_obj_insert_sub w oid sid true = (w, -1)) ∧
    (sub.obj ≠ some oid → co_obj_remove_sub w oid sid true = (w, -1)) ∧
    (sub.obj = some oid →
      (co_obj_remove_sub w oid sid true).2 = 0 ∧
      WF (co_obj_remove_sub w oid sid true).1 ∧
      subAttached (co_obj_remove_sub w oid sid true).1 sid = false ∧
      co_sub_get_val (co_obj_remove_sub w oid sid true).1 sid = none) ∧
    (sub.obj = none → treeFind w.subs obj.tree sub.subidx = false →
      (co_obj_insert_sub w oid sid true).2 = 0 ∧
      WF (co_obj_insert_sub w oid sid true).1 ∧
      subAttached (co_obj_insert_sub w oid sid true).1 sid = true) ∧
    (∀ oidA oidB : Nat, ∀ objA objB : CoObj, ∀ x : Nat,
      alookup w.objs oidA = some objA → alookup w.objs oidB = some objB →
      x ∈ objA.tree → x ∈ objB.tree → oidA = oidB) := by
  refine ⟨?_, ?_, ?_, ?_, ?_, ?_, ?_⟩
  · intro oid2 hso hne
    rw [co_obj_insert_sub_eq_def w oid sid obj sub true hobj hsub,
      if_pos ⟨by
        rw [hso]
        exact fun h => Option.noConfusion h, by
        rw [hso]
        exact fun h => hne (Option.some.inj h)⟩]
  · intro hown
    rw [co_obj_insert_sub_eq_def w oid sid obj sub true hobj hsub,
      if_neg (fun h => h.2 hown), if_pos hown]
  · intro hdet hfind
    rw [co_obj_insert_sub_eq_def w oid sid obj sub true hobj hsub,
      if_neg (fun h => h.1 hdet),
      if_neg (fun h => Option.noConfusion (hdet.symm.trans h)),
      if_pos hfind]
  · intro hnot
    rw [co_obj_remove_sub_eq_def w oid sid obj sub true hobj hsub,
      if_pos hnot]
  · intro hown
    obtain ⟨hret, hWF', hatt, hnone, _⟩ :=
      co_obj_remove_sub_success w oid sid obj sub hWF hobj hsub hown
    exact ⟨hret, hWF', hatt, hnone⟩
  · intro hdet hfind
    obtain ⟨hret, hWF', hzero, hatt, _⟩ :=
      co_obj_insert_sub_success w oid sid obj sub hWF hobj hsub hdet hfind
    exact ⟨hret, hWF', hatt⟩
  · intro oidA oidB objA objB x hA hB hxA hxB
    obtain ⟨_, _, _, _, h5w, _, _, _, _, _, _, _, _⟩ := id hWF
    have haA := h5w (oidA, objA) (mem_of_alookup _ _ _ hA) x hxA
    have haB := h5w (oidB, objB) (mem_of_alookup _ _ _ hB) x hxB
    rcases hlx : alookup w.subs x with _ | sx
    · rw [subOwnedBy, hlx] at haA
      exact Bool.noConfusion haA
    · have e1 := subOwnedBy_spec _ _ _ _ hlx haA
      have e2 := subOwnedBy_spec _ _ _ _ hlx haB
      rw [e1] at e2
      exact Option.some.inj e2

/--
Witness for C5: on the concrete well-formed world wDict, inserting the
already-attached sub-object 5 into its own object succeeds with no effect,
and removing it succeeds and detaches it.
-/
theorem sub_at_most_one_owner_witness :
    WF wDict ∧
    co_obj_insert_sub wDict 1 5 true = (wDict, 0) ∧
    subAttached (co_obj_remove_sub wDict 1 5 true).1 5 = false :=
  ⟨by decide,
    (sub_at_most_one_owner wDict 1 5 objDict subDict5 (by decide) (by decide)
        (by decide)).2.1 (by decide),
    ((sub_at_most_one_owner wDict 1 5 objDict subDict5 (by decide) (by decide)
        (by decide)).2.2.2.2.1 (by decide)).2.2.1⟩

end LelyCo
